import Mathlib

/-!
Verification of the motion-correction core of `caiman/motion_correction.py`.

The Python module is embedded shallowly:

* IEEE pixel values are modelled as `Option ℚ`, with `none` standing for NaN
  (the orchestration layer, which must also distinguish infinities, uses the
  richer type `NpV`);
* numpy arrays are total functions from indices to pixel values together with
  their shape; entries outside the shape are junk that is never read;
* the FFT-based numeric kernels (`cv2.dft`, the matrix-multiply DFT,
  `cv2.remap`, `cv2.resize`, `cv2.warpAffine`, Gaussian filtering) are
  irrational-valued and are abstracted as parameters collected in `Ext`;
  every piece of integer / rational arithmetic and all control flow and data
  plumbing of the Python source is translated directly.
-/

namespace Caiman

/-! ### Pixel values -/

/-- `np.nansum` over a stack treats NaN as 0. -/
def toZ (v : Option ℚ) : ℚ := v.getD 0

/-- Multiply a possibly-NaN value by a finite scalar (NaN propagates). -/
def omul (v : Option ℚ) (c : ℚ) : Option ℚ := v.map (· * c)

/-- Subtract a finite scalar from a possibly-NaN value (NaN propagates). -/
def osub (v : Option ℚ) (c : ℚ) : Option ℚ := v.map (· - c)

/-- Add a finite scalar to a possibly-NaN value (NaN propagates). -/
def oadd (v : Option ℚ) (c : ℚ) : Option ℚ := v.map (· + c)

/-- Pointwise division; NaN in either operand poisons the result. -/
def odiv : Option ℚ → Option ℚ → Option ℚ
  | some a, some b => some (a / b)
  | _, _ => none

/-- `np.clip(v, lo, hi)` = `minimum(maximum(v, lo), hi)`; NaN anywhere
propagates to the output. -/
def npClip (v lo hi : Option ℚ) : Option ℚ :=
  match v, lo, hi with
  | some x, some l, some h => some (min h (max l x))
  | _, _, _ => none

/-! ### 2D arrays -/

/-- A 2D float array: shape `d1 × d2`, `none` = NaN.  The pixel function is
total; values outside the shape are junk that the embedding never reads. -/
structure Img where
  d1 : Nat
  d2 : Nat
  px : Nat → Nat → Option ℚ

/-- numpy basic slicing `im[x : x + h, y : y + w]` (a view; the stop index is
clamped to the array extent). -/
def Img.slice (im : Img) (x y h w : Nat) : Img :=
  ⟨min im.d1 (x + h) - x, min im.d2 (y + w) - y, fun i j => im.px (x + i) (y + j)⟩

/-- `im + c` (elementwise, NaN propagates). -/
def Img.addConst (im : Img) (c : ℚ) : Img :=
  ⟨im.d1, im.d2, fun i j => oadd (im.px i j) c⟩

/-- `im - c` (elementwise, NaN propagates). -/
def Img.subConst (im : Img) (c : ℚ) : Img :=
  ⟨im.d1, im.d2, fun i j => osub (im.px i j) c⟩

/-- The in-shape cells of an array, row-major. -/
def Img.cells (im : Img) : List (Option ℚ) :=
  (List.range im.d1).flatMap (fun i => (List.range im.d2).map (fun j => im.px i j))

/-- `np.nanmin`: smallest finite entry, or NaN (`none`) if there is none. -/
def nanmin (im : Img) : Option ℚ := (im.cells.filterMap id).min?

/-- `np.nanmax`: largest finite entry, or NaN (`none`) if there is none. -/
def nanmax (im : Img) : Option ℚ := (im.cells.filterMap id).max?

/-! ### Python `range` and the sliding-window grid -/

/-- Python `range(start, stop, step)` for a positive `step`. -/
def pyRange (start stop step : Nat) : List Nat :=
  (List.range ((stop - start + step - 1) / step)).map (fun i => start + i * step)

/-- Window origins along one dimension, as computed in `sliding_window`:
`list(range(0, extent - windowSize, stride)) + [extent - windowSize]`. -/
def windowOrigins (extent windowSize stride : Nat) : List Nat :=
  pyRange 0 (extent - windowSize) stride ++ [extent - windowSize]

/-- Pair every element of a list with its index starting at `n`. -/
def withIdxFrom (n : Nat) : List α → List (Nat × α)
  | [] => []
  | a :: t => (n, a) :: withIdxFrom (n + 1) t

/-- Pair every element of a list with its index (Python `enumerate`). -/
def withIdx (l : List α) : List (Nat × α) :=
  withIdxFrom 0 l

/-- One entry yielded by `sliding_window`: grid coordinates `(g1, g2)` and the
patch origin `(x, y)` (the patch itself is `image[x : x+ws1, y : y+ws2]`). -/
structure WindowSpec where
  g1 : Nat
  g2 : Nat
  x : Nat
  y : Nat
deriving DecidableEq, Repr

/-- The grid coordinates and patch origins enumerated by `sliding_window`
(outer loop over the first dimension, inner loop over the second; the window
size is `overlaps + strides`). -/
def sliding_window_coords (shape overlaps strides : Nat × Nat) : List WindowSpec :=
  let ws1 := overlaps.1 + strides.1
  let ws2 := overlaps.2 + strides.2
  (withIdx (windowOrigins shape.1 ws1 strides.1)).flatMap (fun p1 =>
    (withIdx (windowOrigins shape.2 ws2 strides.2)).map (fun p2 =>
      ⟨p1.1, p2.1, p1.2, p2.2⟩))

/-! ### Blending weight matrices (`create_weight_matrix_for_blending`) -/

/-- `np.linspace a b n` evaluated at index `k` (`k < n`); numpy returns `[a]`
for `n = 1`. -/
def linspace (a b : ℚ) (n : Nat) (k : Nat) : ℚ :=
  if n ≤ 1 then a else a + (k : ℚ) * (b - a) / ((n : ℚ) - 1)

/-- The weight matrix yielded by `create_weight_matrix_for_blending` for the
patch at grid coordinate `(g1, g2)`; the patch shape is
`strides + overlaps` elementwise and `maxg1, maxg2` are the maximal grid
coordinates.  The four region updates of the source are applied in order
(dimension-1 ramps by assignment, dimension-2 ramps by multiplication);
negative-index regions `[-overlap:]` start at `shape − overlap` with numpy's
clamping, which matches truncated subtraction. -/
def weight_matrix_body (overlaps strides : Nat × Nat) (maxg1 maxg2 g1 g2 : Nat)
    (i j : Nat) : ℚ :=
  let shape1 := strides.1 + overlaps.1
  let shape2 := strides.2 + overlaps.2
  let w0 : ℚ := 1
  let w1 := if 0 < g1 ∧ i < overlaps.1 then linspace 0 1 overlaps.1 i else w0
  let w2 := if g1 < maxg1 ∧ shape1 - overlaps.1 ≤ i then
      linspace 1 0 overlaps.1 (i - (shape1 - overlaps.1)) else w1
  let w3 := if 0 < g2 ∧ j < overlaps.2 then w2 * linspace 0 1 overlaps.2 j else w2
  let w4 := if g2 < maxg2 ∧ shape2 - overlaps.2 ≤ j then
      w3 * linspace 1 0 overlaps.2 (j - (shape2 - overlaps.2)) else w3
  w4

/-- `np.max` over the grid coordinates enumerated by `sliding_window`
(the `max_grid_1, max_grid_2` of `create_weight_matrix_for_blending`). -/
def max_grid (shape overlaps strides : Nat × Nat) : Nat × Nat :=
  (((sliding_window_coords shape overlaps strides).map (fun w => w.g1)).foldl max 0,
   ((sliding_window_coords shape overlaps strides).map (fun w => w.g2)).foldl max 0)

/-- `create_weight_matrix_for_blending`: one weight matrix per patch, in the
same enumeration order as `sliding_window` (only the array's shape is read
from `img`). -/
def create_weight_matrix_for_blending (shape overlaps strides : Nat × Nat) :
    List (Nat → Nat → ℚ) :=
  (sliding_window_coords shape overlaps strides).map (fun w =>
    weight_matrix_body overlaps strides (max_grid shape overlaps strides).1
      (max_grid shape overlaps strides).2 w.g1 w.g2)

/-- The per-dimension ramp in the words of the spec: linear ramp 0→1 over the
first `overlap` samples exactly when the patch is not first along the
dimension, 1→0 over the last `overlap` samples exactly when not last,
1 elsewhere. -/
def spec_ramp (overlap shape : Nat) (notFirst notLast : Bool) (i : Nat) : ℚ :=
  if notFirst ∧ i < overlap then linspace 0 1 overlap i
  else if notLast ∧ shape - overlap ≤ i then
    linspace 1 0 overlap (i - (shape - overlap))
  else 1

/-- The weight matrix in the words of the spec: the two per-dimension ramps
combined multiplicatively. -/
def spec_weight (overlaps strides : Nat × Nat) (maxg1 maxg2 g1 g2 : Nat)
    (i j : Nat) : ℚ :=
  spec_ramp overlaps.1 (strides.1 + overlaps.1) (decide (0 < g1)) (decide (g1 < maxg1)) i *
  spec_ramp overlaps.2 (strides.2 + overlaps.2) (decide (0 < g2)) (decide (g2 < maxg2)) j

/-! ### `register_translation` -/

/-- An array of arbitrary rank (`register_translation` accepts any);
`none` = NaN. -/
structure NdImg where
  shape : List Nat
  px : List Nat → Option ℚ

/-- A 2D array viewed as an ndarray. -/
def Img.toNd (im : Img) : NdImg :=
  ⟨[im.d1, im.d2], fun l => im.px (l.getD 0 0) (l.getD 1 0)⟩

/-- The `space` argument of `register_translation` (already lower-cased);
`other` stands for any string besides `"real"` and `"fourier"`. -/
inductive Space
  | real
  | fourier
  | other
deriving DecidableEq, Repr

/-- The exceptions raised by `register_translation`:
`ValueError` for mismatched sizes, `NotImplementedError` for subpixel
registration of non-2D data, `ValueError` for an unknown `space`. -/
inductive RTErr
  | valueErrorSize
  | notImplementedRank
  | valueErrorSpace
deriving DecidableEq, Repr

/-- The `border_nan` argument: `False` / `True` / `'min'` / `'copy'`. -/
inductive Border
  | noFill
  | nanFill
  | minFill
  | copyFill
deriving DecidableEq, Repr

/-- The abstract numeric externals (FFT kernels and OpenCV transforms, all of
which produce irrational values).  The embedding is parameterized by them;
theorems quantify over arbitrary instances. -/
structure Ext where
  /-- The peak location of `register_translation` after input validation:
  from the two frequency-domain arrays, the upsample factor, the optional
  per-axis shift bounds `(shifts_lb, shifts_ub)` and `max_shifts`, the raw
  per-axis shifts of the located cross-correlation maximum together with
  `_compute_phasediff(CCmax)`. -/
  regCore : NdImg → NdImg → Nat → Option (List Int) → Option (List Int) →
    List Nat → List ℚ × ℚ
  /-- `np.fft.fftn` / the opencv forward DFT (same-shape output). -/
  fftnVals : NdImg → List Nat → Option ℚ
  /-- `apply_shifts_dft im shift diffphase is_freq border_nan`. -/
  applyShiftsDft : Img → ℚ × ℚ → ℚ → Bool → Border → Nat → Nat → Option ℚ
  /-- `cv2.warpAffine` with cubic interpolation over the translation matrix
  built by `apply_shift_iteration` (same-shape output). -/
  warpAffine : Img → ℚ × ℚ → Nat → Nat → Option ℚ
  /-- `cv2.resize` with cubic interpolation: field, source size, target size. -/
  resize : (Nat → Nat → ℚ) → Nat × Nat → Nat × Nat → Nat → Nat → ℚ
  /-- `cv2.remap` of a frame over two dense coordinate fields. -/
  remap : Img → (Nat → Nat → ℚ) → (Nat → Nat → ℚ) → Nat → Nat → Option ℚ
  /-- `high_pass_filter_space img gSig_filt` (Gaussian path). -/
  highPass : Img → Nat × Nat → Img

/-- The final loop of `register_translation`: the shift along any axis of
length 1 is forced to exactly 0. -/
def zeroDegenerateAxes (shape : List Nat) (shifts : List ℚ) : List ℚ :=
  (withIdx shifts).map (fun p => if shape.getD p.1 0 = 1 then 0 else p.2)

/-- `register_translation`: input validation, then the abstract FFT core,
then the degenerate-axis rule.  Returns `(shifts, src_freq, phasediff)`;
`src_freq` is the forward transform of `src_image` when `space = real` and
`src_image` itself when `space = fourier`. -/
def register_translation (E : Ext) (src_image target_image : NdImg)
    (upsample_factor : Nat) (space : Space)
    (shifts_lb shifts_ub : Option (List Int)) (max_shifts : List Nat) :
    Except RTErr (List ℚ × NdImg × ℚ) :=
  if src_image.shape ≠ target_image.shape then .error .valueErrorSize
  else if src_image.shape.length ≠ 2 ∧ 1 < upsample_factor then
    .error .notImplementedRank
  else if space = .other then .error .valueErrorSpace
  else
    let src_freq : NdImg :=
      if space = .fourier then src_image else ⟨src_image.shape, E.fftnVals src_image⟩
    let target_freq : NdImg :=
      if space = .fourier then target_image
      else ⟨target_image.shape, E.fftnVals target_image⟩
    let core := E.regCore src_freq target_freq upsample_factor shifts_lb shifts_ub max_shifts
    .ok (zeroDegenerateAxes src_freq.shape core.1, src_freq, core.2)

/-- Unwrap an ok `tile_and_correct` result (junk default), used to state
concrete evaluations. -/
def wOk (x : Except String
    (Img × List (ℚ × ℚ) × Option (List (Nat × Nat)) × Option (List (Nat × Nat)))) :
    Img × List (ℚ × ℚ) × Option (List (Nat × Nat)) × Option (List (Nat × Nat)) :=
  x.toOption.getD (⟨0, 0, fun _ _ => none⟩, [], none, none)

/-- Unwrap an ok list of registration results (junk default). -/
def wOkRegs (x : Except RTErr (List (List ℚ × NdImg × ℚ))) :
    List (List ℚ × NdImg × ℚ) :=
  x.toOption.getD []

/-- A concrete instance of the abstract externals, used to evaluate the
embedding at specific inputs. -/
def trivialExt : Ext where
  regCore _ _ _ _ _ _ := ([0, 0], 0)
  fftnVals _ _ := some 0
  applyShiftsDft _ _ _ _ _ _ _ := some 0
  warpAffine _ _ _ _ := some 0
  resize _ _ _ _ _ := 0
  remap _ _ _ _ _ := some 0
  highPass im _ := im


/-! ### `apply_shift_iteration` (the OpenCV fast shift path) -/

/-- `apply_shift_iteration`: cubic warp (abstract), clipping of interpolation
overshoot to `[nanmin img, nanmax img]`, then the border-fill policy over the
border of width `ceil(max(0, shift))` / `−floor(min(0, shift))` per axis.
The `copy` fill reads the already-mutated array (rows first, then columns of
the row-filled array), as the source mutates in place. -/
def apply_shift_iteration (E : Ext) (img : Img) (shift : ℚ × ℚ)
    (border_nan : Border) : Img :=
  let minv := nanmin img
  let maxv := nanmax img
  let clipped : Nat → Nat → Option ℚ := fun i j =>
    npClip (E.warpAffine img shift i j) minv maxv
  let maxH : Nat := (Int.ceil (max 0 shift.1)).toNat
  let maxW : Nat := (Int.ceil (max 0 shift.2)).toNat
  let negH : Nat := (-(Int.floor (min 0 shift.1))).toNat
  let negW : Nat := (-(Int.floor (min 0 shift.2))).toNat
  let d1 := img.d1
  let d2 := img.d2
  match border_nan with
  | .noFill => ⟨d1, d2, clipped⟩
  | .nanFill =>
      ⟨d1, d2, fun i j =>
        if i < maxH ∨ (0 < negH ∧ d1 - negH ≤ i) ∨ j < maxW ∨ (0 < negW ∧ d2 - negW ≤ j)
        then none else clipped i j⟩
  | .minFill =>
      ⟨d1, d2, fun i j =>
        if i < maxH ∨ (0 < negH ∧ d1 - negH ≤ i) ∨ j < maxW ∨ (0 < negW ∧ d2 - negW ≤ j)
        then minv else clipped i j⟩
  | .copyFill =>
      let rows : Nat → Nat → Option ℚ := fun i j =>
        if 0 < maxH ∧ i < maxH then clipped maxH j
        else if 0 < negH ∧ d1 - negH ≤ i then clipped (d1 - negH - 1) j
        else clipped i j
      ⟨d1, d2, fun i j =>
        if 0 < maxW ∧ j < maxW then rows i maxW
        else if 0 < negW ∧ d2 - negW ≤ j then rows i (d2 - negW - 1)
        else rows i j⟩

/-! ### `tile_and_correct` -/

/-- A (possibly NaN-valued) pixel field, unbounded; the canvas arrays
`new_img` / `normalizer` start as all-NaN (`np.zeros_like(img) * np.nan`). -/
def Canvas : Type := Nat → Nat → Option ℚ

/-- A rank-2 ndarray viewed as a 2D array. -/
def NdImg.to2d (a : NdImg) : Img :=
  ⟨a.shape.getD 0 0, a.shape.getD 1 0, fun i j => a.px [i, j]⟩

/-- `np.round`: round half to even. -/
def npRound (q : ℚ) : ℤ :=
  let f := Int.floor q
  let r := q - f
  if r < 1 / 2 then f
  else if 1 / 2 < r then f + 1
  else if f % 2 = 0 then f else f + 1

/-- `field.reshape(n1 * n2)`: the row-major flattening of a 2D field. -/
def reshapeFlat (f : Nat → Nat → ℚ) (n1 n2 : Nat) : List ℚ :=
  (List.range (n1 * n2)).map (fun k => f (k / n2) (k % n2))

/-- Insert into a sorted list (ascending). -/
def insertSorted (x : ℚ) : List ℚ → List ℚ
  | [] => [x]
  | y :: t => if x ≤ y then x :: y :: t else y :: insertSorted x t

/-- Sort ascending (as `np.percentile` does internally). -/
def sortQ (l : List ℚ) : List ℚ :=
  l.foldr insertSorted []

/-- `np.max(np.abs(np.diff(field, axis=0)))` over an `n1 × n2` field
(junk 0 when the diff is empty; numpy would raise there). -/
def maxAbsDiff0 (f : Nat → Nat → ℚ) (n1 n2 : Nat) : ℚ :=
  (((List.range (n1 - 1)).flatMap (fun i =>
    (List.range n2).map (fun j => |f (i + 1) j - f i j|)))).foldl max 0

/-- `np.max(np.abs(np.diff(field, axis=1)))` over an `n1 × n2` field. -/
def maxAbsDiff1 (f : Nat → Nat → ℚ) (n1 n2 : Nat) : ℚ :=
  (((List.range n1).flatMap (fun i =>
    (List.range (n2 - 1)).map (fun j => |f i (j + 1) - f i j|)))).foldl max 0

/-- `max_shear`: the 75th percentile (numpy linear interpolation on 4 sorted
values: `s[2] + (s[3] − s[2])/4`) of the four per-(field, axis) maxima of the
first-difference magnitudes of the two upsampled shift fields. -/
def tc_max_shear (sx sy : Nat → Nat → ℚ) (n1 n2 : Nat) : ℚ :=
  let s := sortQ [maxAbsDiff0 sx n1 n2, maxAbsDiff1 sx n1 n2,
                  maxAbsDiff0 sy n1 n2, maxAbsDiff1 sy n1 n2]
  s.getD 2 0 + (s.getD 3 0 - s.getD 2 0) / 4

/-- One patch of the fine grid during stitching: origin, grid coordinate, the
shift-corrected patch image, and its blending weight matrix. -/
structure TcPatch where
  x : Nat
  y : Nat
  g1 : Nat
  g2 : Nat
  im : Nat → Nat → Option ℚ
  w : Nat → Nat → ℚ

/-- One step of the blending accumulation (`max_shear < 0.5` branch): over the
patch's region, `normalizer += (~isnan(im))·weight` and
`new_img += im·weight`, both via `np.nansum` (NaN counts as 0; the running
canvases start as NaN). `acc.1` is the numerator canvas (`new_img`), `acc.2`
the denominator (`normalizer`). -/
def blendStep (ns1 ns2 : Nat) (acc : Canvas × Canvas) (p : TcPatch) :
    Canvas × Canvas :=
  (fun i j =>
    if p.x ≤ i ∧ i < p.x + ns1 ∧ p.y ≤ j ∧ j < p.y + ns2 then
      some (toZ (omul (p.im (i - p.x) (j - p.y)) (p.w (i - p.x) (j - p.y)))
        + toZ (acc.1 i j))
    else acc.1 i j,
   fun i j =>
    if p.x ≤ i ∧ i < p.x + ns1 ∧ p.y ≤ j ∧ j < p.y + ns2 then
      some ((if (p.im (i - p.x) (j - p.y)).isSome then p.w (i - p.x) (j - p.y) else 0)
        + toZ (acc.2 i j))
    else acc.2 i j)

/-- The `max_shear < 0.5` stitching: accumulate all patches, then divide
`new_img / normalizer`. -/
def blendLoop (ns1 ns2 : Nat) (ps : List TcPatch) : Canvas :=
  let acc := ps.foldl (blendStep ns1 ns2) (fun _ _ => none, fun _ _ => none)
  fun i j => odiv (acc.1 i j) (acc.2 i j)

/-- The region a patch writes in the hard (`max_shear ≥ 0.5`) branch: half the
overlap is trimmed from the leading edge of every internal patch
(`x_start = x + half_overlap` unless the patch is first along the dimension),
nothing from the trailing edge. -/
def hard_write_region (ho1 ho2 ns1 ns2 : Nat) (p : TcPatch) (i j : Nat) : Prop :=
  (if p.g1 = 0 then p.x else p.x + ho1) ≤ i ∧ i < p.x + ns1 ∧
  (if p.g2 = 0 then p.y else p.y + ho2) ≤ j ∧ j < p.y + ns2

instance (ho1 ho2 ns1 ns2 : Nat) (p : TcPatch) (i j : Nat) :
    Decidable (hard_write_region ho1 ho2 ns1 ns2 p i j) := by
  unfold hard_write_region; infer_instance

/-- One step of the hard stitching: overwrite the patch's trimmed region with
`im[x_start − x :, y_start − y :]`. -/
def hardStep (ns1 ns2 ho1 ho2 : Nat) (acc : Canvas) (p : TcPatch) : Canvas :=
  fun i j =>
    if hard_write_region ho1 ho2 ns1 ns2 p i j then p.im (i - p.x) (j - p.y)
    else acc i j

/-- The `max_shear ≥ 0.5` stitching: sequential overwrites, later patches win. -/
def hardLoop (ns1 ns2 ho1 ho2 : Nat) (ps : List TcPatch) : Canvas :=
  ps.foldl (hardStep ns1 ns2 ho1 ho2) (fun _ _ => none)

/-- The normalized weighted sum in the words of the spec: numerator
`Σ weight·patch` and denominator `Σ weight·valid_mask` over the patches
covering the pixel, divided at the end (NaN where no patch covers). -/
def spec_blend_value (ns1 ns2 : Nat) (ps : List TcPatch) (i j : Nat) : Option ℚ :=
  let covering := ps.filter (fun p =>
    decide (p.x ≤ i ∧ i < p.x + ns1 ∧ p.y ≤ j ∧ j < p.y + ns2))
  if covering.isEmpty then none
  else some
    (((covering.map (fun p =>
        toZ (omul (p.im (i - p.x) (j - p.y)) (p.w (i - p.x) (j - p.y))))).sum) /
     ((covering.map (fun p =>
        if (p.im (i - p.x) (j - p.y)).isSome then p.w (i - p.x) (j - p.y) else 0)).sum))

/-- The hard-partition value in the words of the spec: the pixel is taken from
exactly one patch — the last enumerated patch whose trimmed region contains
it. -/
def spec_hard_value (ns1 ns2 ho1 ho2 : Nat) (ps : List TcPatch) (i j : Nat) :
    Option ℚ :=
  match (ps.filter (fun p =>
      decide (hard_write_region ho1 ho2 ns1 ns2 p i j))).getLast? with
  | some p => p.im (i - p.x) (j - p.y)
  | none => none

/-- The image that is registered: high-pass filtered when `gSig_filt` is set,
then `+ add_to_movie`. -/
def tc_input (E : Ext) (img : Img) (gSig_filt : Option (Nat × Nat)) (add : ℚ) : Img :=
  (match gSig_filt with
    | some g => E.highPass img g
    | none => img).addConst add

/-- The image the fast (OpenCV) paths resample: the unfiltered original when
`gSig_filt` is set (without `add_to_movie`!), else the registered image. -/
def tc_base (E : Ext) (img : Img) (gSig_filt : Option (Nat × Nat)) (add : ℚ) : Img :=
  match gSig_filt with
  | some _ => img
  | none => tc_input E img gSig_filt add

/-- `np.add(xy_grid[-1], 1)`: the patch-grid dimensions. -/
def tc_dim_grid (d1 d2 : Nat) (overlaps strides : Nat × Nat) : Nat × Nat :=
  match (sliding_window_coords (d1, d2) overlaps strides).getLast? with
  | some w => (w.g1 + 1, w.g2 + 1)
  | none => (0, 0)

/-- The zipped per-patch `(img, template)` pairs of the coarse grid
(`zip` truncates to the shortest list, as in Python, and
`[upsample_factor_fft] * num_tiles` caps the length at `num_tiles`). -/
def tc_patch_pairs (img1 templ1 : Img) (overlaps strides : Nat × Nat) :
    List (Img × Img) :=
  let ws1 := overlaps.1 + strides.1
  let ws2 := overlaps.2 + strides.2
  let dg := tc_dim_grid templ1.d1 templ1.d2 overlaps strides
  (((sliding_window_coords (img1.d1, img1.d2) overlaps strides).map
      (fun w => img1.slice w.x w.y ws1 ws2)).zip
    ((sliding_window_coords (templ1.d1, templ1.d2) overlaps strides).map
      (fun w => templ1.slice w.x w.y ws1 ws2))).take (dg.1 * dg.2)

/-- `np.ceil(rigid_shts − max_deviation_rigid)` per axis (`None` disables). -/
def tc_lb (r0 r1 : ℚ) (mdr : Option Int) : Option (List Int) :=
  match mdr with
  | some d => some [Int.ceil (r0 - (d : ℚ)), Int.ceil (r1 - (d : ℚ))]
  | none => none

/-- `np.floor(rigid_shts + max_deviation_rigid)` per axis (`None` disables). -/
def tc_ub (r0 r1 : ℚ) (mdr : Option Int) : Option (List Int) :=
  match mdr with
  | some d => some [Int.floor (r0 + (d : ℚ)), Int.floor (r1 + (d : ℚ))]
  | none => none

/-- `shift_img_x`: the x components of the per-patch shifts reshaped into the
grid (row-major). -/
def tc_field_x (regs : List (List ℚ × NdImg × ℚ)) (n2 : Nat) : Nat → Nat → ℚ :=
  fun a b => ((regs.map (fun r => r.1)).getD (a * n2 + b) []).getD 0 0

/-- `shift_img_y`. -/
def tc_field_y (regs : List (List ℚ × NdImg × ℚ)) (n2 : Nat) : Nat → Nat → ℚ :=
  fun a b => ((regs.map (fun r => r.1)).getD (a * n2 + b) []).getD 1 0

/-- `diffs_phase_grid`. -/
def tc_field_phase (regs : List (List ℚ × NdImg × ℚ)) (n2 : Nat) : Nat → Nat → ℚ :=
  fun a b => (regs.map (fun r => r.2.2)).getD (a * n2 + b) 0

/-- `newoverlaps` with its default. -/
def tc_newoverlaps (overlaps : Nat × Nat) (nov : Option (Nat × Nat)) : Nat × Nat :=
  nov.getD overlaps

/-- `newstrides` with its default
`np.round(np.divide(strides, upsample_factor_grid)).astype(int)`. -/
def tc_newstrides (strides : Nat × Nat) (ufg : Nat) (nst : Option (Nat × Nat)) :
    Nat × Nat :=
  nst.getD ((npRound ((strides.1 : ℚ) / (ufg : ℚ))).toNat,
            (npRound ((strides.2 : ℚ) / (ufg : ℚ))).toNat)

/-- The negated flattened shift pairs
`[(-x, -y) for x, y in zip(sx.reshape(N), sy.reshape(N))]`. -/
def tc_total_shifts (sx sy : Nat → Nat → ℚ) (n1 n2 : Nat) : List (ℚ × ℚ) :=
  ((reshapeFlat sx n1 n2).zip (reshapeFlat sy n1 n2)).map (fun p => (-p.1, -p.2))

/-- The stitching patches of the frequency-domain path: fine-grid windows
zipped with the shift-corrected patch images and the blending weights. -/
def tc_patches (E : Ext) (img1 : Img) (nov nst : Nat × Nat)
    (sx_us sy_us phase_us : Nat → Nat → ℚ) (n1 n2 : Nat) (border_nan : Border) :
    List TcPatch :=
  let coordsNew := sliding_window_coords (img1.d1, img1.d2) nov nst
  let imgsN := coordsNew.map (fun w =>
    img1.slice w.x w.y (nov.1 + nst.1) (nov.2 + nst.2))
  let total_shifts := tc_total_shifts sx_us sy_us n1 n2
  let total_diffs_phase := reshapeFlat phase_us n1 n2
  let imgsC := (imgsN.zip (total_shifts.zip total_diffs_phase)).map
    (fun p => E.applyShiftsDft p.1 p.2.1 p.2.2 false border_nan)
  let weight_matrix := create_weight_matrix_for_blending (img1.d1, img1.d2) nov nst
  ((coordsNew.zip imgsC).zip (total_shifts.zip weight_matrix)).map
    (fun q => ⟨q.1.1.x, q.1.1.y, q.1.1.g1, q.1.1.g2, q.1.2, q.2.2⟩)

/-- `tile_and_correct`: piecewise-rigid motion correction of one frame.

Returns `(corrected − add_to_movie, total_shifts, start_step?, xy_grid?)`.
`show_movie` (display only) and `use_cuda` (an alternate FFT backend) do not
affect the returned values and are omitted.  `max_deviation_rigid` is `none`
for Python `None`.  The FFT / OpenCV kernels come from `E`. -/
def tile_and_correct (E : Ext) (img template : Img) (strides overlaps : Nat × Nat)
    (max_shifts : Nat × Nat) (newoverlaps newstrides : Option (Nat × Nat))
    (upsample_factor_grid : Nat) (upsample_factor_fft : Nat)
    (max_deviation_rigid : Option Int) (add_to_movie : ℚ)
    (shifts_opencv : Bool) (gSig_filt : Option (Nat × Nat)) (border_nan : Border) :
    Except String (Img × List (ℚ × ℚ) × Option (List (Nat × Nat)) × Option (List (Nat × Nat))) :=
  let img1 := tc_input E img gSig_filt add_to_movie
  let templ1 := template.addConst add_to_movie
  match register_translation E img1.toNd templ1.toNd upsample_factor_fft .real
      none none [max_shifts.1, max_shifts.2] with
  | .error _ => .error "register_translation"
  | .ok (rigid_shts, sfr_freq, diffphase) =>
    let r0 := rigid_shts.getD 0 0
    let r1 := rigid_shts.getD 1 0
    if max_deviation_rigid = some 0 then
      if shifts_opencv then
        let new_img := apply_shift_iteration E
          (tc_base E img gSig_filt add_to_movie) (-r0, -r1) border_nan
        .ok (new_img.subConst add_to_movie, [(-r0, -r1)], none, none)
      else
        match gSig_filt with
        | some _ =>
            .error "The use of FFT and filtering options have not been tested. Set opencv=True"
        | none =>
          let new_img : Img :=
            ⟨img1.d1, img1.d2,
              E.applyShiftsDft sfr_freq.to2d (-r0, -r1) diffphase true border_nan⟩
          .ok (new_img.subConst add_to_movie, [(-r0, -r1)], none, none)
    else
      let dim_grid := tc_dim_grid templ1.d1 templ1.d2 overlaps strides
      match (tc_patch_pairs img1 templ1 overlaps strides).mapM (fun p =>
          register_translation E p.1.toNd p.2.toNd upsample_factor_fft .real
            (tc_lb r0 r1 max_deviation_rigid) (tc_ub r0 r1 max_deviation_rigid)
            [max_shifts.1, max_shifts.2]) with
      | .error _ => .error "register_translation"
      | .ok regs =>
        let shift_img_x := tc_field_x regs dim_grid.2
        let shift_img_y := tc_field_y regs dim_grid.2
        let diffs_phase_grid := tc_field_phase regs dim_grid.2
        if shifts_opencv then
          let base := tc_base E img gSig_filt add_to_movie
          let map1 : Nat → Nat → ℚ := fun i j =>
            E.resize shift_img_y dim_grid (base.d1, base.d2) i j + (j : ℚ)
          let map2 : Nat → Nat → ℚ := fun i j =>
            E.resize shift_img_x dim_grid (base.d1, base.d2) i j + (i : ℚ)
          let m_reg : Img := ⟨base.d1, base.d2, E.remap base map1 map2⟩
          let total_shifts := tc_total_shifts shift_img_x shift_img_y dim_grid.1 dim_grid.2
          .ok (m_reg.subConst add_to_movie, total_shifts, none, none)
        else
          let nov := tc_newoverlaps overlaps newoverlaps
          let nst := tc_newstrides strides upsample_factor_grid newstrides
          let newshapes := (nst.1 + nov.1, nst.2 + nov.2)
          let coordsNew := sliding_window_coords (img1.d1, img1.d2) nov nst
          let start_step := coordsNew.map (fun w => (w.x, w.y))
          let xy_grid_n := coordsNew.map (fun w => (w.g1, w.g2))
          let dim_new_grid := tc_dim_grid img1.d1 img1.d2 nov nst
          let sx_us := E.resize shift_img_x dim_grid dim_new_grid
          let sy_us := E.resize shift_img_y dim_grid dim_new_grid
          let phase_us := E.resize diffs_phase_grid dim_grid dim_new_grid
          let max_shear := tc_max_shear sx_us sy_us dim_new_grid.1 dim_new_grid.2
          let total_shifts := tc_total_shifts sx_us sy_us dim_new_grid.1 dim_new_grid.2
          match gSig_filt with
          | some _ =>
              .error "The use of FFT and filtering options have not been tested. Set opencv=True"
          | none =>
            let patches := tc_patches E img1 nov nst sx_us sy_us phase_us
              dim_new_grid.1 dim_new_grid.2 border_nan
            let canvas : Canvas :=
              if max_shear < 1 / 2 then blendLoop newshapes.1 newshapes.2 patches
              else hardLoop newshapes.1 newshapes.2 (nov.1 / 2) (nov.2 / 2) patches
            let new_img : Img := ⟨img1.d1, img1.d2, canvas⟩
            .ok (new_img.subConst add_to_movie, total_shifts,
              some start_step, some xy_grid_n)

/-- A concrete 3×3 test frame. -/
def wImg : Img := ⟨3, 3, fun _ _ => some 1⟩

/-- The frequency-domain array `register_translation` returns for `wImg`
under the trivial externals. -/
def wSfr : NdImg :=
  ⟨(tc_input trivialExt wImg none 0).toNd.shape,
   trivialExt.fftnVals (tc_input trivialExt wImg none 0).toNd⟩

/-- The per-patch registration results for `wImg` against itself under the
trivial externals (coarse 2×2 grid, no deviation bound). -/
def wRegs : List (List ℚ × NdImg × ℚ) :=
  wOkRegs ((tc_patch_pairs (tc_input trivialExt wImg none 0)
      (wImg.addConst 0) (1, 1) (1, 1)).mapM (fun p =>
    register_translation trivialExt p.1.toNd p.2.toNd 1 .real
      (tc_lb (([0, 0] : List ℚ).getD 0 0) (([0, 0] : List ℚ).getD 1 0) none)
      (tc_ub (([0, 0] : List ℚ).getD 0 0) (([0, 0] : List ℚ).getD 1 0) none)
      [1, 1]))

/-! ### The batch orchestrators (`motion_correct_batch_rigid` / `_pwrigid`) -/

/-- An IEEE value as seen by the orchestrators' checks: NaN, ±Inf or a finite
value.  (The `Option ℚ` encoding used elsewhere cannot distinguish Inf.) -/
inductive NpV
  | nan
  | pinf
  | ninf
  | fin (q : ℚ)
deriving DecidableEq, Repr

/-- `np.isnan` on a scalar. -/
def NpV.isnan : NpV → Bool
  | .nan => true
  | _ => false

def NpV.isninf : NpV → Bool
  | .ninf => true
  | _ => false

def NpV.neg : NpV → NpV
  | .nan => .nan
  | .pinf => .ninf
  | .ninf => .pinf
  | .fin q => .fin (-q)

/-- `np.min` over a (nonempty) array: NaN poisons, `-inf` dominates, else the
least finite value (`+inf` when every entry is `+inf`). -/
def npMinV (l : List NpV) : NpV :=
  if l.any NpV.isnan then .nan
  else if l.any NpV.isninf then .ninf
  else
    match (l.filterMap (fun v => match v with | .fin q => some q | _ => none)).min? with
    | some m => .fin m
    | none => .pinf

/-- `motion_correct_batch_rigid`, template-given path, reduced to its
numerical-corruption checking and iteration structure: when `add_to_movie` is
`None` it is set to `-np.min(template)`; the single `np.isnan(add_to_movie)`
test before the loop is the only non-finiteness check; the loop then reruns
the per-iteration worker (`motion_correction_piecewise` + `np.nanmedian` +
optional high-pass) `num_iter` times on the evolving template with no further
checks.  Returns the final `total_template`. -/
def motion_correct_batch_rigid (template : List NpV) (add_to_movie : Option NpV)
    (num_iter : Nat) (worker : List NpV → List NpV) :
    Except String (List NpV) :=
  let add :=
    match add_to_movie with
    | none => (npMinV template).neg
    | some a => a
  if NpV.isnan add then .error "The movie contains NaNs. NaNs are not allowed!"
  else .ok (Nat.iterate worker num_iter template)

/-- `motion_correct_batch_pwrigid`: raises if no template was supplied; the
single `np.isnan(add_to_movie)` test on the (required) scalar argument is the
only non-finiteness check — the template itself is never inspected; the loop
then reruns the worker `num_iter` times with no further checks. -/
def motion_correct_batch_pwrigid (template : Option (List NpV))
    (add_to_movie : NpV) (num_iter : Nat) (worker : List NpV → List NpV) :
    Except String (List NpV) :=
  match template with
  | none => .error "You need to initialize the template with a good estimate. See the motion_correct_batch_rigid function"
  | some t =>
    if NpV.isnan add_to_movie then
      .error "The template contains NaNs. NaNs are not allowed!"
    else .ok (Nat.iterate worker num_iter t)

/-- The `save_movie` values `motion_correct_batch_rigid` passes to
`motion_correction_piecewise`, one per iteration: `save_movie` starts `False`
and is assigned `save_movie_rigid` when `iter_ == num_iter - 1` (the fuel
argument mirrors `range(num_iter)`). -/
def save_flag_loop (smr : Bool) (num_iter : Nat) : Nat → Nat → Bool → List Bool
  | 0, _, _ => []
  | fuel + 1, it, sm =>
    let smNew := if it = num_iter - 1 then smr else sm
    smNew :: save_flag_loop smr num_iter fuel (it + 1) smNew

def rigid_save_flags (num_iter : Nat) (save_movie_rigid : Bool) : List Bool :=
  save_flag_loop save_movie_rigid num_iter num_iter 0 false

/-- The `save_movie` values `motion_correct_batch_pwrigid` passes to
`motion_correction_piecewise`: the body's `save_movie = save_movie` on the
final iteration is a self-assignment. -/
def pw_save_flag_loop (num_iter : Nat) : Nat → Nat → Bool → List Bool
  | 0, _, _ => []
  | fuel + 1, it, sm =>
    let smNew := if it = num_iter - 1 then sm else sm
    smNew :: pw_save_flag_loop num_iter fuel (it + 1) smNew

def pwrigid_save_flags (num_iter : Nat) (save_movie : Bool) : List Bool :=
  pw_save_flag_loop num_iter num_iter 0 save_movie

/-- The output file `motion_correction_piecewise` hands to the workers:
`save_movie` is forced `False` when `splits` is given as a list or when
`num_splits` is not `None`; a memmap name is created only when it survives
as `True`, else `fname_tot = None`. -/
def piecewise_fname_tot (save_movie splitsIsInt numSplitsIsNone : Bool)
    (base : String) : Option String :=
  let sm1 := if splitsIsInt then save_movie else false
  let sm2 := if numSplitsIsNone then sm1 else false
  if sm2 then some base else none

/-- `tile_and_correct_wrapper` writes its corrected frames to the frame store
iff `out_fname is not None`. -/
def tile_and_correct_wrapper_writes (out_fname : Option String) : Bool :=
  out_fname.isSome

/-! #### Basic facts about `pyRange`, `windowOrigins` and `withIdx` -/

lemma mem_pyRange_zero {x stop step : Nat} :
    x ∈ pyRange 0 stop step ↔ ∃ i, i < (stop + step - 1) / step ∧ i * step = x := by
  simp [pyRange]

lemma pyRange_member_lt {i stop step : Nat} (hs : 1 ≤ step)
    (hi : i < (stop + step - 1) / step) : i * step < stop := by
  rcases Nat.eq_zero_or_pos stop with h0 | h1
  · subst h0
    rw [Nat.zero_add] at hi
    have := Nat.div_eq_of_lt (show step - 1 < step by omega)
    omega
  · rw [show stop + step - 1 = (stop - 1) + step by omega, Nat.add_div_right _ hs] at hi
    have h2 : i ≤ (stop - 1) / step := by omega
    have h3 : i * step ≤ (stop - 1) / step * step := Nat.mul_le_mul_right _ h2
    have h4 : (stop - 1) / step * step ≤ stop - 1 := Nat.div_mul_le_self _ _
    omega

lemma lt_pyRange_count_of_mul_lt {q stop step : Nat} (hs : 1 ≤ step)
    (h : q * step < stop) : q < (stop + step - 1) / step := by
  rw [show stop + step - 1 = (stop - 1) + step by omega, Nat.add_div_right _ hs]
  have : q ≤ (stop - 1) / step := (Nat.le_div_iff_mul_le hs).mpr (by omega)
  omega

lemma mem_windowOrigins {x extent ws stride : Nat} (hs : 1 ≤ stride)
    (hx : x ∈ windowOrigins extent ws stride) : x ≤ extent - ws := by
  rcases List.mem_append.mp hx with h | h
  · obtain ⟨i, hi, rfl⟩ := mem_pyRange_zero.mp h
    exact le_of_lt (pyRange_member_lt hs hi)
  · simp only [List.mem_singleton] at h; omega

lemma windowOrigins_ne_nil {extent ws stride : Nat} :
    windowOrigins extent ws stride ≠ [] := by
  simp [windowOrigins]

lemma windowOrigins_getLast {extent ws stride : Nat} (h : windowOrigins extent ws stride ≠ []) :
    (windowOrigins extent ws stride).getLast h = extent - ws := by
  simp [windowOrigins]

lemma last_mem_windowOrigins {extent ws stride : Nat} :
    extent - ws ∈ windowOrigins extent ws stride := by
  simp [windowOrigins]

lemma windowOrigins_cover {extent ws stride i : Nat} (hs : 1 ≤ stride)
    (hws : ws ≤ extent) (hsw : stride ≤ ws) (hi : i < extent) :
    ∃ x ∈ windowOrigins extent ws stride, x ≤ i ∧ i < x + ws := by
  by_cases hcase : extent - ws ≤ i
  · exact ⟨extent - ws, last_mem_windowOrigins, hcase, by omega⟩
  · push_neg at hcase
    refine ⟨(i / stride) * stride, ?_, Nat.div_mul_le_self i stride, ?_⟩
    · apply List.mem_append.mpr; left
      apply mem_pyRange_zero.mpr
      refine ⟨i / stride, ?_, rfl⟩
      exact lt_pyRange_count_of_mul_lt hs
        (lt_of_le_of_lt (Nat.div_mul_le_self i stride) hcase)
    · have h4 : i / stride * stride + i % stride = i := Nat.div_add_mod' i stride
      have hmod : i % stride < stride := Nat.mod_lt _ hs
      linarith

lemma withIdxFrom_getElem? (l : List α) (n k : Nat) :
    (withIdxFrom n l)[k]? = (l[k]?).map (fun a => (n + k, a)) := by
  induction l generalizing n k with
  | nil => simp [withIdxFrom]
  | cons a t ih =>
    cases k with
    | zero => simp [withIdxFrom]
    | succ m =>
      simp only [withIdxFrom, List.getElem?_cons_succ, ih]
      have : n + (m + 1) = (n + 1) + m := by omega
      rw [this]

lemma withIdx_getElem? (l : List α) (k : Nat) :
    (withIdx l)[k]? = (l[k]?).map (fun a => (k, a)) := by
  simpa using withIdxFrom_getElem? l 0 k

lemma withIdx_length (l : List α) : (withIdx l).length = l.length := by
  suffices h : ∀ n, (withIdxFrom n l).length = l.length by exact h 0
  induction l with
  | nil => intro n; rfl
  | cons a t ih => intro n; simp [withIdxFrom, ih]

lemma mem_withIdx_iff (l : List α) (p : Nat × α) :
    p ∈ withIdx l ↔ l[p.1]? = some p.2 := by
  constructor
  · intro hp
    obtain ⟨k, hk, hget⟩ := List.getElem_of_mem hp
    have h := withIdx_getElem? l k
    rw [List.getElem?_eq_getElem hk, hget] at h
    rcases hval : l[k]? with _ | v
    · rw [hval] at h; simp at h
    · rw [hval] at h
      simp only [Option.map_some'] at h
      have hp2 : p = (k, v) := Option.some.inj h
      rw [hp2]
      exact hval
  · intro hp
    have h := withIdx_getElem? l p.1
    rw [hp] at h
    simp only [Option.map_some'] at h
    obtain ⟨hlt, heq⟩ := List.getElem?_eq_some_iff.mp h
    have hm := List.getElem_mem hlt
    rw [heq] at hm
    simpa using hm

lemma flatMap_map_nil (l1 : List α) (f : α → β → γ) :
    (l1.flatMap (fun a => ([] : List β).map (f a))) = [] := by
  induction l1 with
  | nil => rfl
  | cons a t ih => simpa using ih

/-- `getElem?` of the row-major product enumeration. -/
lemma getElem?_flatMap_map (l1 : List α) (l2 : List β) (f : α → β → γ) (k : Nat) :
    (l1.flatMap (fun a => l2.map (f a)))[k]? =
      (l1[k / l2.length]?).bind (fun a => (l2[k % l2.length]?).map (f a)) := by
  rcases Nat.eq_zero_or_pos l2.length with h2 | h2
  · have hnil : l2 = [] := List.length_eq_zero.mp h2
    subst hnil
    rw [flatMap_map_nil]
    simp
  · induction l1 generalizing k with
    | nil => simp
    | cons a t ih =>
      simp only [List.flatMap_cons]
      by_cases hk : k < l2.length
      · rw [List.getElem?_append_left (by simp only [List.length_map]; exact hk)]
        rw [Nat.div_eq_of_lt hk, Nat.mod_eq_of_lt hk]
        simp [List.getElem?_map]
      · push_neg at hk
        obtain ⟨m, rfl⟩ := Nat.exists_eq_add_of_le hk
        rw [List.getElem?_append_right (by simpa using hk)]
        simp only [List.length_map]
        rw [show l2.length + m - l2.length = m by omega, ih]
        rw [Nat.add_div_left _ h2, Nat.add_mod_left]
        simp

lemma length_flatMap_map (l1 : List α) (l2 : List β) (f : α → β → γ) :
    (l1.flatMap (fun a => l2.map (f a))).length = l1.length * l2.length := by
  induction l1 with
  | nil => simp
  | cons a t ih => simp [ih, Nat.succ_mul, Nat.add_comm]

lemma foldl_max_le {l : List ℕ} {b c : ℕ} (hb : b ≤ c) (h : ∀ a ∈ l, a ≤ c) :
    l.foldl max b ≤ c := by
  induction l generalizing b with
  | nil => simpa using hb
  | cons a t ih =>
    simp only [List.foldl_cons]
    exact ih (max_le hb (h a (by simp))) (fun x hx => h x (by simp [hx]))

lemma le_foldl_max_init (l : List ℕ) (b : ℕ) : b ≤ l.foldl max b := by
  induction l generalizing b with
  | nil => simp
  | cons x t ih => exact le_trans (le_max_left b x) (ih _)

lemma le_foldl_max {l : List ℕ} {b a : ℕ} (h : a ∈ l) : a ≤ l.foldl max b := by
  induction l generalizing b with
  | nil => simp at h
  | cons x t ih =>
    simp only [List.foldl_cons]
    rcases List.mem_cons.mp h with rfl | h
    · exact le_trans (le_max_right b a) (le_foldl_max_init t _)
    · exact ih h

/-! #### The patch-grid enumeration -/

lemma mem_sliding_window_coords {shape overlaps strides : Nat × Nat} {w : WindowSpec} :
    w ∈ sliding_window_coords shape overlaps strides ↔
      ((w.g1, w.x) ∈ withIdx (windowOrigins shape.1 (overlaps.1 + strides.1) strides.1) ∧
       (w.g2, w.y) ∈ withIdx (windowOrigins shape.2 (overlaps.2 + strides.2) strides.2)) := by
  simp only [sliding_window_coords, List.mem_flatMap, List.mem_map]
  constructor
  · rintro ⟨p1, hp1, p2, hp2, rfl⟩
    simpa using ⟨hp1, hp2⟩
  · rintro ⟨h1, h2⟩
    exact ⟨(w.g1, w.x), h1, (w.g2, w.y), h2, rfl⟩

lemma windowOrigins_getLast? (extent ws stride : Nat) :
    (windowOrigins extent ws stride).getLast? = some (extent - ws) := by
  simp [windowOrigins]

lemma windowOrigins_length_pos (extent ws stride : Nat) :
    0 < (windowOrigins extent ws stride).length := by
  simp [windowOrigins]

lemma sliding_window_coords_length (shape overlaps strides : Nat × Nat) :
    (sliding_window_coords shape overlaps strides).length =
      (windowOrigins shape.1 (overlaps.1 + strides.1) strides.1).length *
      (windowOrigins shape.2 (overlaps.2 + strides.2) strides.2).length := by
  simp only [sliding_window_coords]
  rw [length_flatMap_map, withIdx_length, withIdx_length]

lemma last_index_arith {n1 n2 : Nat} (h1 : 0 < n1) (h2 : 0 < n2) :
    (n1 * n2 - 1) / n2 = n1 - 1 ∧ (n1 * n2 - 1) % n2 = n2 - 1 := by
  have hre : n1 * n2 - 1 = (n2 - 1) + (n1 - 1) * n2 := by
    obtain ⟨m, rfl⟩ := Nat.exists_eq_add_of_le h1
    obtain ⟨k, rfl⟩ := Nat.exists_eq_add_of_le h2
    rw [show 1 + m - 1 = m by omega, show 1 + k - 1 = k by omega,
      show (1 + m) * (1 + k) = 1 + (k + m * (1 + k)) by ring, Nat.add_sub_cancel_left]
  constructor
  · rw [hre, Nat.add_mul_div_right _ _ h2, Nat.div_eq_of_lt (by omega), Nat.zero_add]
  · rw [hre, Nat.add_mul_mod_self_right, Nat.mod_eq_of_lt (by omega)]

lemma sliding_window_coords_getLast? (shape overlaps strides : Nat × Nat) :
    (sliding_window_coords shape overlaps strides).getLast? =
      some ⟨(windowOrigins shape.1 (overlaps.1 + strides.1) strides.1).length - 1,
            (windowOrigins shape.2 (overlaps.2 + strides.2) strides.2).length - 1,
            shape.1 - (overlaps.1 + strides.1), shape.2 - (overlaps.2 + strides.2)⟩ := by
  set o1 := windowOrigins shape.1 (overlaps.1 + strides.1) strides.1 with ho1
  set o2 := windowOrigins shape.2 (overlaps.2 + strides.2) strides.2 with ho2
  have h1 : 0 < o1.length := windowOrigins_length_pos _ _ _
  have h2 : 0 < o2.length := windowOrigins_length_pos _ _ _
  rw [List.getLast?_eq_getElem?, sliding_window_coords_length]
  simp only [sliding_window_coords, ← ho1, ← ho2]
  rw [getElem?_flatMap_map]
  rw [withIdx_length]
  obtain ⟨hdiv, hmod⟩ := last_index_arith h1 h2
  rw [hdiv, hmod, withIdx_getElem?, withIdx_getElem?]
  have e1 : o1[o1.length - 1]? = some (shape.1 - (overlaps.1 + strides.1)) := by
    rw [← List.getLast?_eq_getElem?, ho1, windowOrigins_getLast?]
  have e2 : o2[o2.length - 1]? = some (shape.2 - (overlaps.2 + strides.2)) := by
    rw [← List.getLast?_eq_getElem?, ho2, windowOrigins_getLast?]
  rw [e1, e2]
  simp

/-- **C3.** For every 2D array and every `(strides, overlaps)` with
`stride ≥ 1` and `stride + overlap ≤ extent` in each dimension: every tile
enumerated by `sliding_window` has shape exactly `strides + overlaps`, the
tiles cover every array index at least once, and the final patch origin along
each dimension is `extent − (stride + overlap)`, so the last patch ends
exactly at the array boundary. -/
theorem C3_sliding_window_tiles (im : Img) (strides overlaps : Nat × Nat)
    (hs1 : 1 ≤ strides.1) (hs2 : 1 ≤ strides.2)
    (hb1 : strides.1 + overlaps.1 ≤ im.d1) (hb2 : strides.2 + overlaps.2 ≤ im.d2) :
    (∀ w ∈ sliding_window_coords (im.d1, im.d2) overlaps strides,
        (im.slice w.x w.y (overlaps.1 + strides.1) (overlaps.2 + strides.2)).d1
            = overlaps.1 + strides.1 ∧
        (im.slice w.x w.y (overlaps.1 + strides.1) (overlaps.2 + strides.2)).d2
            = overlaps.2 + strides.2) ∧
    (∀ i j, i < im.d1 → j < im.d2 →
        ∃ w ∈ sliding_window_coords (im.d1, im.d2) overlaps strides,
          w.x ≤ i ∧ i < w.x + (overlaps.1 + strides.1) ∧
          w.y ≤ j ∧ j < w.y + (overlaps.2 + strides.2)) ∧
    (∃ w, (sliding_window_coords (im.d1, im.d2) overlaps strides).getLast? = some w ∧
        w.x = im.d1 - (overlaps.1 + strides.1) ∧
        w.y = im.d2 - (overlaps.2 + strides.2)) := by
  refine ⟨?_, ?_, ?_⟩
  · intro w hw
    obtain ⟨h1, h2⟩ := mem_sliding_window_coords.mp hw
    have hx : w.x ∈ windowOrigins im.d1 (overlaps.1 + strides.1) strides.1 := by
      rw [mem_withIdx_iff] at h1
      obtain ⟨hlt, heq⟩ := List.getElem?_eq_some_iff.mp h1
      have := List.getElem_mem hlt
      rwa [heq] at this
    have hy : w.y ∈ windowOrigins im.d2 (overlaps.2 + strides.2) strides.2 := by
      rw [mem_withIdx_iff] at h2
      obtain ⟨hlt, heq⟩ := List.getElem?_eq_some_iff.mp h2
      have := List.getElem_mem hlt
      rwa [heq] at this
    have hxe := mem_windowOrigins hs1 hx
    have hye := mem_windowOrigins hs2 hy
    constructor
    · simp only [Img.slice]; omega
    · simp only [Img.slice]; omega
  · intro i j hi hj
    obtain ⟨x, hxmem, hx1, hx2⟩ :=
      @windowOrigins_cover im.d1 (overlaps.1 + strides.1)
        strides.1 i hs1 (by omega) (by omega) hi
    obtain ⟨y, hymem, hy1, hy2⟩ :=
      @windowOrigins_cover im.d2 (overlaps.2 + strides.2)
        strides.2 j hs2 (by omega) (by omega) hj
    obtain ⟨k1, hk1, he1⟩ := List.getElem_of_mem hxmem
    obtain ⟨k2, hk2, he2⟩ := List.getElem_of_mem hymem
    refine ⟨⟨k1, k2, x, y⟩, mem_sliding_window_coords.mpr ⟨?_, ?_⟩, hx1, hx2, hy1, hy2⟩
    · rw [mem_withIdx_iff]
      simpa [List.getElem?_eq_getElem hk1] using he1
    · rw [mem_withIdx_iff]
      simpa [List.getElem?_eq_getElem hk2] using he2
  · exact ⟨_, sliding_window_coords_getLast? _ _ _, rfl, rfl⟩

/-- Witness for C3 at a concrete array and grid. -/
theorem C3_sliding_window_tiles_witness :
    (1 ≤ 2 ∧ 1 ≤ 2 ∧ 2 + 1 ≤ 5 ∧ 2 + 1 ≤ 4) ∧
    ((∀ w ∈ sliding_window_coords (5, 4) (1, 1) (2, 2),
        ((⟨5, 4, fun _ _ => some 0⟩ : Img).slice w.x w.y (1 + 2) (1 + 2)).d1 = 1 + 2 ∧
        ((⟨5, 4, fun _ _ => some 0⟩ : Img).slice w.x w.y (1 + 2) (1 + 2)).d2 = 1 + 2) ∧
    (∀ i j, i < 5 → j < 4 →
        ∃ w ∈ sliding_window_coords (5, 4) (1, 1) (2, 2),
          w.x ≤ i ∧ i < w.x + (1 + 2) ∧ w.y ≤ j ∧ j < w.y + (1 + 2)) ∧
    (∃ w, (sliding_window_coords (5, 4) (1, 1) (2, 2)).getLast? = some w ∧
        w.x = 5 - (1 + 2) ∧ w.y = 4 - (1 + 2))) := by
  refine ⟨by omega, ?_⟩
  exact C3_sliding_window_tiles ⟨5, 4, fun _ _ => some 0⟩ (2, 2) (1, 1)
    (by decide) (by decide) (by decide) (by decide)

lemma weight_matrix_body_eq_spec (overlaps strides : Nat × Nat)
    (maxg1 maxg2 g1 g2 : Nat) (ho1 : overlaps.1 ≤ strides.1)
    (ho2 : overlaps.2 ≤ strides.2) (i j : Nat) :
    weight_matrix_body overlaps strides maxg1 maxg2 g1 g2 i j =
      spec_weight overlaps strides maxg1 maxg2 g1 g2 i j := by
  unfold weight_matrix_body spec_weight spec_ramp
  simp only [decide_eq_true_eq]
  have hd1 : strides.1 + overlaps.1 - overlaps.1 = strides.1 := by omega
  have hd2 : strides.2 + overlaps.2 - overlaps.2 = strides.2 := by omega
  rw [hd1, hd2]
  split_ifs <;> first
    | (exfalso; omega)
    | ring1

lemma sliding_window_coords_length_pos (shape overlaps strides : Nat × Nat) :
    0 < (sliding_window_coords shape overlaps strides).length := by
  rw [sliding_window_coords_length]
  exact Nat.mul_pos (windowOrigins_length_pos _ _ _) (windowOrigins_length_pos _ _ _)

lemma sliding_window_coords_head (shape overlaps strides : Nat × Nat) :
    ∃ v1 v2, (sliding_window_coords shape overlaps strides)[0]? = some ⟨0, 0, v1, v2⟩ := by
  set o1 := windowOrigins shape.1 (overlaps.1 + strides.1) strides.1 with ho1
  set o2 := windowOrigins shape.2 (overlaps.2 + strides.2) strides.2 with ho2
  have h1 : 0 < o1.length := windowOrigins_length_pos _ _ _
  have h2 : 0 < o2.length := windowOrigins_length_pos _ _ _
  refine ⟨o1.get ⟨0, h1⟩, o2.get ⟨0, h2⟩, ?_⟩
  simp only [sliding_window_coords, ← ho1, ← ho2]
  rw [getElem?_flatMap_map, withIdx_length, Nat.zero_div, Nat.zero_mod,
    withIdx_getElem?, withIdx_getElem?,
    List.getElem?_eq_getElem h1, List.getElem?_eq_getElem h2]
  simp

/-- **C5 (amended).** Provided `overlap ≤ stride` in each dimension (so the
up- and the down-ramp regions of a patch are disjoint), the weight matrix of
every patch is the product of the two per-dimension spec ramps (0→1 over the
first `overlap` samples exactly when not first, 1→0 over the last `overlap`
samples exactly when not last, 1 elsewhere); and for a grid consisting of a
single patch the weight matrix is uniformly 1.  (Without the proviso the two
dimension-1 assignments overlap and the later one overwrites the earlier, so
the first-`overlap` rows need not carry the 0→1 ramp; see the
counterexample.) -/
theorem C5_weight_matrix_amended (shape overlaps strides : Nat × Nat)
    (ho1 : overlaps.1 ≤ strides.1) (ho2 : overlaps.2 ≤ strides.2) :
    (∀ (k : Nat) (w : WindowSpec) (Wk : Nat → Nat → ℚ),
      (sliding_window_coords shape overlaps strides)[k]? = some w →
      (create_weight_matrix_for_blending shape overlaps strides)[k]? = some Wk →
      ∀ i j, Wk i j = spec_weight overlaps strides
          (max_grid shape overlaps strides).1 (max_grid shape overlaps strides).2
          w.g1 w.g2 i j) ∧
    ((sliding_window_coords shape overlaps strides).length = 1 →
      ∀ (Wk : Nat → Nat → ℚ),
      (create_weight_matrix_for_blending shape overlaps strides)[0]? = some Wk →
      ∀ i j, Wk i j = 1) := by
  constructor
  · intro k w Wk hw hWk i j
    rw [create_weight_matrix_for_blending, List.getElem?_map, hw] at hWk
    simp only [Option.map_some'] at hWk
    rw [← Option.some.inj hWk]
    exact weight_matrix_body_eq_spec overlaps strides _ _ _ _ ho1 ho2 i j
  · intro hlen Wk hWk i j
    obtain ⟨v1, v2, h0⟩ := sliding_window_coords_head shape overlaps strides
    have hco : sliding_window_coords shape overlaps strides = [⟨0, 0, v1, v2⟩] := by
      obtain ⟨a, ha⟩ := List.length_eq_one.mp hlen
      rw [ha] at h0 ⊢
      simpa using h0
    rw [create_weight_matrix_for_blending, List.getElem?_map, h0] at hWk
    simp only [Option.map_some'] at hWk
    rw [← Option.some.inj hWk]
    have hmax : max_grid shape overlaps strides = (0, 0) := by
      rw [max_grid, hco]; rfl
    rw [hmax]
    simp [weight_matrix_body]

/-- Witness for C5 (amended) on a 2×2-tile grid and a single-tile grid. -/
theorem C5_weight_matrix_amended_witness :
    ((1 : Nat) ≤ 2 ∧ (1 : Nat) ≤ 2 ∧
      (sliding_window_coords (3, 3) (1, 1) (2, 2)).length = 1) ∧
    weight_matrix_body (1, 1) (2, 2) (max_grid (3, 3) (1, 1) (2, 2)).1
        (max_grid (3, 3) (1, 1) (2, 2)).2 0 0 1 2 =
      spec_weight (1, 1) (2, 2) (max_grid (3, 3) (1, 1) (2, 2)).1
        (max_grid (3, 3) (1, 1) (2, 2)).2 0 0 1 2 ∧
    weight_matrix_body (1, 1) (2, 2) (max_grid (3, 3) (1, 1) (2, 2)).1
        (max_grid (3, 3) (1, 1) (2, 2)).2 0 0 2 2 = 1 := by
  refine ⟨by decide, ?_, ?_⟩
  · exact (C5_weight_matrix_amended (3, 3) (1, 1) (2, 2) (by decide) (by decide)).1
      0 ⟨0, 0, 0, 0⟩ _ (by decide) rfl 1 2
  · exact (C5_weight_matrix_amended (3, 3) (1, 1) (2, 2) (by decide) (by decide)).2
      (by decide) _ rfl 2 2

/-- **C5 counterexample.** For the grid with shape `(6,2)`, `overlaps = (3,1)`,
`strides = (1,1)` (overlap exceeds stride), the middle patch (grid coordinate
`(1,0)`) is not first along dimension 1, yet its weight at sample `(1,0)` is
`1`, not the value `1/2` of the 0→1 ramp the claim prescribes for the first
`overlap` samples: the later 1→0 assignment overwrote the ramp. -/
theorem C5_counterexample :
    (sliding_window_coords (6, 2) (3, 1) (1, 1)).getD 1 ⟨0, 0, 0, 0⟩ = ⟨1, 0, 1, 0⟩ ∧
    ((create_weight_matrix_for_blending (6, 2) (3, 1) (1, 1)).getD 1 (fun _ _ => 0)) 1 0
      = 1 ∧
    spec_weight (3, 1) (1, 1) (max_grid (6, 2) (3, 1) (1, 1)).1
      (max_grid (6, 2) (3, 1) (1, 1)).2 1 0 1 0 = 1 / 2 ∧
    (1 : ℚ) ≠ 1 / 2 := by
  refine ⟨by decide, ?_, ?_, by norm_num⟩
  · norm_num [create_weight_matrix_for_blending, sliding_window_coords,
      windowOrigins, pyRange, withIdx, withIdxFrom, max_grid,
      weight_matrix_body, linspace]
  · norm_num [spec_weight, spec_ramp, max_grid, sliding_window_coords,
      windowOrigins, pyRange, withIdx, withIdxFrom, linspace]

/-! ### `register_translation`: degenerate axes and error behaviour -/

lemma zeroDegenerateAxes_getElem? (shape : List Nat) (sh : List ℚ) (dim : Nat) :
    (zeroDegenerateAxes shape sh)[dim]? =
      (sh[dim]?).map (fun a => if shape.getD dim 0 = 1 then 0 else a) := by
  unfold zeroDegenerateAxes
  rw [List.getElem?_map, withIdx_getElem?]
  cases sh[dim]? <;> simp

/-- **C2.** Whenever `register_translation` returns, the shift component along
any spatial axis of length 1 is exactly 0 — regardless of the arrays'
contents (the peak-location core `E.regCore` is arbitrary), of
`upsample_factor`, and of any shift bounds. -/
theorem C2_register_translation_degenerate_axis (E : Ext)
    (src tgt : NdImg) (upf : Nat) (space : Space)
    (lb ub : Option (List Int)) (ms : List Nat)
    (shifts : List ℚ) (freq : NdImg) (phase : ℚ)
    (hok : register_translation E src tgt upf space lb ub ms = .ok (shifts, freq, phase))
    (dim : Nat) (hdim : src.shape[dim]? = some 1)
    (v : ℚ) (hv : shifts[dim]? = some v) : v = 0 := by
  have key : ∀ sh : List ℚ, (zeroDegenerateAxes src.shape sh)[dim]? = some v → v = 0 := by
    intro sh hzv
    rw [zeroDegenerateAxes_getElem?] at hzv
    rcases hraw : sh[dim]? with _ | a
    · rw [hraw] at hzv; simp at hzv
    · rw [hraw] at hzv
      have hg : src.shape.getD dim 0 = 1 := by
        have := List.getD_eq_getElem?_getD src.shape dim 0
        rw [hdim] at this
        simpa using this
      rw [hg] at hzv
      simpa using hzv.symm
  unfold register_translation at hok
  split_ifs at hok <;>
    (simp only [Except.ok.injEq, Prod.mk.injEq] at hok
     obtain ⟨hsh, -, -⟩ := hok
     exact key _ (hsh.symm ▸ hv))

/-- Witness for C2 on a `1 × 3` input with the trivial externals. -/
theorem C2_register_translation_degenerate_axis_witness :
    register_translation trivialExt ⟨[1, 3], fun _ => some 5⟩ ⟨[1, 3], fun _ => some 5⟩
        1 .real none none [10, 10] =
      .ok ([0, 0],
        ⟨[1, 3], trivialExt.fftnVals ⟨[1, 3], fun _ => some 5⟩⟩, 0) ∧
    ([1, 3] : List Nat)[0]? = some 1 ∧
    ([0, 0] : List ℚ)[0]? = some 0 ∧
    (0 : ℚ) = 0 := by
  refine ⟨rfl, by decide, by decide, ?_⟩
  exact C2_register_translation_degenerate_axis trivialExt
    ⟨[1, 3], fun _ => some 5⟩ ⟨[1, 3], fun _ => some 5⟩ 1 .real none none [10, 10]
    [0, 0] _ 0 rfl 0 (by decide) 0 (by decide)

/-- **C6 (amended).** `register_translation` raises `ValueError` on every call
with mismatched shapes; on shape-matched inputs it raises
`NotImplementedError` exactly when `upsample_factor > 1` is requested and the
rank is not 2 — in particular also for rank-3 inputs (3D data is handled by
the separate `register_translation_3d`). -/
theorem C6_register_translation_errors_amended (E : Ext) (src tgt : NdImg)
    (upf : Nat) (space : Space) (lb ub : Option (List Int)) (ms : List Nat) :
    (src.shape ≠ tgt.shape →
      register_translation E src tgt upf space lb ub ms = .error .valueErrorSize) ∧
    (src.shape = tgt.shape →
      (register_translation E src tgt upf space lb ub ms = .error .notImplementedRank ↔
        (src.shape.length ≠ 2 ∧ 1 < upf))) := by
  constructor
  · intro h
    unfold register_translation
    rw [if_pos h]
  · intro h
    unfold register_translation
    rw [if_neg (by simp [h])]
    by_cases h2 : src.shape.length ≠ 2 ∧ 1 < upf
    · rw [if_pos h2]
      simpa using h2
    · rw [if_neg h2]
      constructor
      · intro hc
        split_ifs at hc <;> simp at hc
      · intro hc
        exact absurd hc h2

/-- Witness for C6 (amended): a mismatched-shape call and a rank-2 call. -/
theorem C6_register_translation_errors_amended_witness :
    (([2, 2] : List Nat) ≠ [2, 3] ∧
      register_translation trivialExt ⟨[2, 2], fun _ => some 0⟩ ⟨[2, 3], fun _ => some 0⟩
        1 .real none none [10, 10] = .error .valueErrorSize) ∧
    (([3, 4] : List Nat) = [3, 4] ∧
      (register_translation trivialExt ⟨[3, 4], fun _ => some 0⟩ ⟨[3, 4], fun _ => some 0⟩
          20 .real none none [10, 10] = .error .notImplementedRank ↔
        (([3, 4] : List Nat).length ≠ 2 ∧ 1 < 20))) := by
  constructor
  · exact ⟨by decide,
      (C6_register_translation_errors_amended trivialExt ⟨[2, 2], fun _ => some 0⟩
        ⟨[2, 3], fun _ => some 0⟩ 1 .real none none [10, 10]).1 (by decide)⟩
  · exact ⟨rfl,
      (C6_register_translation_errors_amended trivialExt ⟨[3, 4], fun _ => some 0⟩
        ⟨[3, 4], fun _ => some 0⟩ 20 .real none none [10, 10]).2 rfl⟩

/-- **C6 counterexample.** A rank-3 call with `upsample_factor = 2` raises
`NotImplementedError` although the claim says that error is raised exactly
when the rank is neither 2 nor 3: `register_translation` accepts only rank 2
for subpixel registration. -/
theorem C6_counterexample :
    register_translation trivialExt ⟨[2, 2, 2], fun _ => some 0⟩
        ⟨[2, 2, 2], fun _ => some 0⟩ 2 .real none none [10, 10, 10] =
      .error .notImplementedRank ∧
    ¬(([2, 2, 2] : List Nat).length ≠ 2 ∧ ([2, 2, 2] : List Nat).length ≠ 3) :=
  ⟨rfl, by decide⟩

/-! ### `apply_shift_iteration`: the clipping invariant -/

lemma nanmin_le_mem {im : Img} {m b : ℚ} (hm : nanmin im = some m)
    (hb : b ∈ im.cells.filterMap id) : m ≤ b :=
  ((List.le_min?_iff (fun _ _ _ => le_min_iff) hm).mp le_rfl) b hb

lemma mem_le_nanmax {im : Img} {M b : ℚ} (hM : nanmax im = some M)
    (hb : b ∈ im.cells.filterMap id) : b ≤ M :=
  ((List.max?_le_iff (fun _ _ _ => max_le_iff) hM).mp le_rfl) b hb

lemma nanmin_le_nanmax {im : Img} {m M : ℚ} (hm : nanmin im = some m)
    (hM : nanmax im = some M) : m ≤ M :=
  mem_le_nanmax hM (List.min?_mem (fun _ _ => min_choice _ _) hm)

lemma npClip_range {v : Option ℚ} {m M x : ℚ} (hmM : m ≤ M)
    (hx : npClip v (some m) (some M) = some x) : m ≤ x ∧ x ≤ M := by
  rcases v with _ | a
  · simp [npClip] at hx
  · simp only [npClip, Option.some.injEq] at hx
    subst hx
    constructor
    · exact le_min hmM (le_max_left m a)
    · exact min_le_left M _

/-- **C10.** Every finite value of the array returned by
`apply_shift_iteration` lies within `[nanmin img, nanmax img]` — the warp is
arbitrary, its overshoot is clipped to the input's finite range — and the
`min` border fill writes exactly that minimum into the border region. -/
theorem C10_apply_shift_iteration_range (E : Ext) (img : Img) (shift : ℚ × ℚ)
    (border_nan : Border) (m M : ℚ)
    (hm : nanmin img = some m) (hM : nanmax img = some M) (i j : Nat) :
    (∀ v, (apply_shift_iteration E img shift border_nan).px i j = some v →
        m ≤ v ∧ v ≤ M) ∧
    (border_nan = .minFill → i < (Int.ceil (max 0 shift.1)).toNat →
        (apply_shift_iteration E img shift border_nan).px i j = nanmin img) := by
  have hmM : m ≤ M := nanmin_le_nanmax hm hM
  have hclip : ∀ (a b : Nat) (v : ℚ),
      npClip (E.warpAffine img shift a b) (nanmin img) (nanmax img) = some v →
      m ≤ v ∧ v ≤ M := by
    intro a b v hv
    rw [hm, hM] at hv
    exact npClip_range hmM hv
  constructor
  · intro v hv
    cases border_nan with
    | noFill =>
        unfold apply_shift_iteration at hv
        exact hclip i j v hv
    | nanFill =>
        unfold apply_shift_iteration at hv
        dsimp only at hv
        split_ifs at hv with h
        exact hclip i j v hv
    | minFill =>
        unfold apply_shift_iteration at hv
        dsimp only at hv
        split_ifs at hv with h
        · rw [hm] at hv
          obtain rfl := Option.some.inj hv
          exact ⟨le_rfl, hmM⟩
        · exact hclip i j v hv
    | copyFill =>
        unfold apply_shift_iteration at hv
        dsimp only at hv
        split_ifs at hv <;> exact hclip _ _ v hv
  · intro hb hi
    subst hb
    unfold apply_shift_iteration
    dsimp only
    rw [if_pos (Or.inl hi)]

/-- Witness for C10 with the trivial externals on a concrete 1×1 image. -/
theorem C10_apply_shift_iteration_range_witness :
    nanmin ⟨1, 1, fun _ _ => some 3⟩ = some 3 ∧
    nanmax ⟨1, 1, fun _ _ => some 3⟩ = some 3 ∧
    (∀ v, (apply_shift_iteration trivialExt ⟨1, 1, fun _ _ => some 3⟩
        (1, 1) .minFill).px 0 0 = some v → (3 : ℚ) ≤ v ∧ v ≤ 3) ∧
    (Border.minFill = .minFill → 0 < (Int.ceil (max 0 ((1, 1) : ℚ × ℚ).1)).toNat →
      (apply_shift_iteration trivialExt ⟨1, 1, fun _ _ => some 3⟩
        (1, 1) .minFill).px 0 0 = nanmin ⟨1, 1, fun _ _ => some 3⟩) := by
  have h1 : nanmin ⟨1, 1, fun _ _ => some 3⟩ = some 3 := rfl
  have h2 : nanmax ⟨1, 1, fun _ _ => some 3⟩ = some 3 := rfl
  exact ⟨h1, h2,
    (C10_apply_shift_iteration_range trivialExt _ (1, 1) .minFill 3 3 h1 h2 0 0).1,
    fun _ _ => (C10_apply_shift_iteration_range trivialExt _ (1, 1) .minFill 3 3
      h1 h2 0 0).2 rfl (by norm_num)⟩

/-! ### `tile_and_correct`: rejected filter/FFT combination -/

/-- **C7.** Every call of `tile_and_correct` that requests the spatial
high-pass filter (`gSig_filt` set) together with the frequency-domain path
(`shifts_opencv = False`) ends in an error — in the rigid branch, in the
piecewise branch, and regardless of how the registrations turn out — so the
combination never produces a corrected frame. -/
theorem C7_tile_and_correct_filter_fft_rejected (E : Ext) (img template : Img)
    (strides overlaps max_shifts : Nat × Nat) (nov nst : Option (Nat × Nat))
    (ufg uff : Nat) (mdr : Option Int) (add : ℚ) (g : Nat × Nat) (bn : Border) :
    ∃ e, tile_and_correct E img template strides overlaps max_shifts nov nst
        ufg uff mdr add false (some g) bn = .error e := by
  unfold tile_and_correct
  dsimp only
  split
  · exact ⟨"register_translation", rfl⟩
  · by_cases hmd : mdr = some 0
    · rw [if_pos hmd]
      exact ⟨_, rfl⟩
    · rw [if_neg hmd]
      split
      · exact ⟨"register_translation", rfl⟩
      · exact ⟨_, rfl⟩

/-! ### `tile_and_correct`: shift metadata (C1) -/

lemma tc_dim_grid_eq (d1 d2 : Nat) (ov st : Nat × Nat) :
    tc_dim_grid d1 d2 ov st =
      ((windowOrigins d1 (ov.1 + st.1) st.1).length,
       (windowOrigins d2 (ov.2 + st.2) st.2).length) := by
  unfold tc_dim_grid
  rw [sliding_window_coords_getLast?]
  have h1 := windowOrigins_length_pos d1 (ov.1 + st.1) st.1
  have h2 := windowOrigins_length_pos d2 (ov.2 + st.2) st.2
  simp only []
  rw [Prod.mk.injEq]
  omega

lemma sliding_window_coords_grid_of_getElem? {shape ov st : Nat × Nat} {k : Nat}
    {w : WindowSpec}
    (hw : (sliding_window_coords shape ov st)[k]? = some w) :
    w.g1 = k / (windowOrigins shape.2 (ov.2 + st.2) st.2).length ∧
    w.g2 = k % (windowOrigins shape.2 (ov.2 + st.2) st.2).length := by
  simp only [sliding_window_coords] at hw
  rw [getElem?_flatMap_map, withIdx_length] at hw
  set n2 := (windowOrigins shape.2 (ov.2 + st.2) st.2).length with hn2
  rw [withIdx_getElem?, withIdx_getElem?] at hw
  rcases hv1 : (windowOrigins shape.1 (ov.1 + st.1) st.1)[k / n2]? with _ | v1 <;>
    rw [hv1] at hw
  · simp at hw
  · rcases hv2 : (windowOrigins shape.2 (ov.2 + st.2) st.2)[k % n2]? with _ | v2 <;>
      rw [hv2] at hw
    · simp at hw
    · simp only [Option.map_some', Option.bind_some] at hw
      have hww := Option.some.inj hw
      subst hww
      exact ⟨rfl, rfl⟩

lemma tc_total_shifts_getElem? (sx sy : Nat → Nat → ℚ) (n1 n2 k : Nat)
    (hk : k < n1 * n2) :
    (tc_total_shifts sx sy n1 n2)[k]? =
      some (-(sx (k / n2) (k % n2)), -(sy (k / n2) (k % n2))) := by
  unfold tc_total_shifts reshapeFlat
  rw [List.getElem?_map]
  have hz : ((((List.range (n1 * n2)).map (fun k => sx (k / n2) (k % n2))).zip
      ((List.range (n1 * n2)).map (fun k => sy (k / n2) (k % n2))))[k]?) =
      some (sx (k / n2) (k % n2), sy (k / n2) (k % n2)) := by
    apply List.getElem?_zip_eq_some.mpr
    constructor
    · rw [List.getElem?_map, List.getElem?_range hk]; rfl
    · rw [List.getElem?_map, List.getElem?_range hk]; rfl
  rw [hz]
  rfl

lemma tc_total_shifts_length (sx sy : Nat → Nat → ℚ) (n1 n2 : Nat) :
    (tc_total_shifts sx sy n1 n2).length = n1 * n2 := by
  unfold tc_total_shifts reshapeFlat
  simp

lemma range_map_getD (l : List α) (d : α) :
    (List.range l.length).map (fun k => l.getD k d) = l := by
  induction l with
  | nil => rfl
  | cons a t ih =>
    rw [List.length_cons, List.range_succ_eq_map, List.map_cons, List.map_map]
    simp only [List.getD_cons_zero, List.cons.injEq]
    refine ⟨trivial, ?_⟩
    have : ((fun k => List.getD (a :: t) k d) ∘ Nat.succ) = fun k => t.getD k d := by
      funext k; rfl
    rw [this, ih]

lemma tc_total_shifts_eq_map (regs : List (List ℚ × NdImg × ℚ)) (n1 n2 : Nat)
    (hlen : regs.length = n1 * n2) :
    tc_total_shifts (tc_field_x regs n2) (tc_field_y regs n2) n1 n2 =
      regs.map (fun r => (-(r.1.getD 0 0), -(r.1.getD 1 0))) := by
  apply List.ext_getElem?
  intro k
  by_cases hk : k < n1 * n2
  · rw [tc_total_shifts_getElem? _ _ _ _ _ hk, List.getElem?_map]
    have hkr : k < regs.length := by omega
    rw [List.getElem?_eq_getElem hkr]
    have hidx : k / n2 * n2 + k % n2 = k := Nat.div_add_mod' k n2
    have hmem : (regs.map (fun r => r.1)).getD k [] = (regs.get ⟨k, hkr⟩).1 := by
      rw [List.getD_eq_getElem?_getD, List.getElem?_map, List.getElem?_eq_getElem hkr]
      rfl
    have hx : tc_field_x regs n2 (k / n2) (k % n2) = (regs.get ⟨k, hkr⟩).1.getD 0 0 := by
      unfold tc_field_x
      rw [hidx, hmem]
    have hy : tc_field_y regs n2 (k / n2) (k % n2) = (regs.get ⟨k, hkr⟩).1.getD 1 0 := by
      unfold tc_field_y
      rw [hidx, hmem]
    rw [hx, hy]
    rfl
  · rw [List.getElem?_eq_none, List.getElem?_eq_none]
    · rw [List.length_map]; omega
    · rw [tc_total_shifts_length]; omega

/-- **C1.** In every path of `tile_and_correct` the returned shift metadata is
the negation of the measured registration output and is exactly the shift
handed to the resampler: (rigid) the single reported shift is
`−rigid_shts` and the frame is resampled at that very shift; (fast piecewise)
the reported list is the negation of the per-patch `register_translation`
shifts while the remap uses the un-negated fields; (frequency piecewise) the
reported list is the negation of the upsampled shift fields, the k-th shift
is paired with the k-th fine patch's origin (`start_step`) and grid
coordinate (`xy_grid`), and equals the negated field at that coordinate. -/
theorem C1_tile_and_correct_shift_sign (E : Ext) (img template : Img)
    (strides overlaps max_shifts : Nat × Nat) (nov0 nst0 : Option (Nat × Nat))
    (ufg uff : Nat) (mdr : Option Int) (add : ℚ) (sopcv : Bool)
    (gS : Option (Nat × Nat)) (bn : Border)
    (rigid : List ℚ) (sfr : NdImg) (dp : ℚ)
    (hrigid : register_translation E (tc_input E img gS add).toNd
        (template.addConst add).toNd uff .real none none
        [max_shifts.1, max_shifts.2] = .ok (rigid, sfr, dp)) :
    (∀ out sh ss gr, mdr = some 0 →
      tile_and_correct E img template strides overlaps max_shifts nov0 nst0
          ufg uff mdr add sopcv gS bn = .ok (out, sh, ss, gr) →
      sh = [(-(rigid.getD 0 0), -(rigid.getD 1 0))] ∧
      (sopcv = true →
        out = (apply_shift_iteration E (tc_base E img gS add)
          (-(rigid.getD 0 0), -(rigid.getD 1 0)) bn).subConst add) ∧
      (sopcv = false →
        out = (Img.mk (tc_input E img gS add).d1 (tc_input E img gS add).d2
          (E.applyShiftsDft sfr.to2d (-(rigid.getD 0 0), -(rigid.getD 1 0)) dp
            true bn)).subConst add)) ∧
    (∀ (regs : List (List ℚ × NdImg × ℚ)) out sh ss gr (dg ndg nov nst : Nat × Nat),
      mdr ≠ some 0 →
      dg = tc_dim_grid (template.addConst add).d1 (template.addConst add).d2
        overlaps strides →
      nov = tc_newoverlaps overlaps nov0 →
      nst = tc_newstrides strides ufg nst0 →
      ndg = tc_dim_grid (tc_input E img gS add).d1 (tc_input E img gS add).d2
        nov nst →
      (tc_patch_pairs (tc_input E img gS add) (template.addConst add)
          overlaps strides).mapM (fun p =>
        register_translation E p.1.toNd p.2.toNd uff .real
          (tc_lb (rigid.getD 0 0) (rigid.getD 1 0) mdr)
          (tc_ub (rigid.getD 0 0) (rigid.getD 1 0) mdr)
          [max_shifts.1, max_shifts.2]) = .ok regs →
      tile_and_correct E img template strides overlaps max_shifts nov0 nst0
          ufg uff mdr add sopcv gS bn = .ok (out, sh, ss, gr) →
      (sopcv = true →
        (regs.length = dg.1 * dg.2 →
          sh = regs.map (fun r => (-(r.1.getD 0 0), -(r.1.getD 1 0)))) ∧
        out = Img.subConst (Img.mk (tc_base E img gS add).d1 (tc_base E img gS add).d2
          (E.remap (tc_base E img gS add)
            (fun i j => E.resize (tc_field_y regs dg.2) dg
              ((tc_base E img gS add).d1, (tc_base E img gS add).d2) i j + (j : ℚ))
            (fun i j => E.resize (tc_field_x regs dg.2) dg
              ((tc_base E img gS add).d1, (tc_base E img gS add).d2) i j + (i : ℚ)))) add) ∧
      (sopcv = false → gS = none →
        sh = tc_total_shifts (E.resize (tc_field_x regs dg.2) dg ndg)
          (E.resize (tc_field_y regs dg.2) dg ndg) ndg.1 ndg.2 ∧
        ss = some ((sliding_window_coords
          ((tc_input E img gS add).d1, (tc_input E img gS add).d2) nov nst).map
            (fun w => (w.x, w.y))) ∧
        gr = some ((sliding_window_coords
          ((tc_input E img gS add).d1, (tc_input E img gS add).d2) nov nst).map
            (fun w => (w.g1, w.g2))) ∧
        (∀ (k : Nat) (w : WindowSpec), (sliding_window_coords
            ((tc_input E img gS add).d1, (tc_input E img gS add).d2) nov nst)[k]?
              = some w →
          sh[k]? = some (-(E.resize (tc_field_x regs dg.2) dg ndg w.g1 w.g2),
                         -(E.resize (tc_field_y regs dg.2) dg ndg w.g1 w.g2))))) := by
  constructor
  · intro out sh ss gr hmd hok
    subst hmd
    unfold tile_and_correct at hok
    dsimp only at hok
    rw [hrigid] at hok
    dsimp only at hok
    rw [if_pos rfl] at hok
    split_ifs at hok with hb
    · -- shifts_opencv
      simp only [Except.ok.injEq, Prod.mk.injEq] at hok
      obtain ⟨ho, hs, -, -⟩ := hok
      refine ⟨hs.symm, fun _ => ho.symm, fun hfalse => ?_⟩
      rw [hb] at hfalse
      exact absurd hfalse (by simp)
    · cases gS with
      | some g => simp at hok
      | none =>
        simp only [Except.ok.injEq, Prod.mk.injEq] at hok
        obtain ⟨ho, hs, -, -⟩ := hok
        refine ⟨hs.symm, fun htrue => absurd htrue hb, fun _ => ho.symm⟩
  · intro regs out sh ss gr dg ndg nov nst hmd hdg hnov hnst hndg hmapM hok
    subst hdg
    subst hnov
    subst hnst
    subst hndg
    unfold tile_and_correct at hok
    dsimp only at hok
    rw [hrigid] at hok
    dsimp only at hok
    rw [if_neg hmd] at hok
    rw [hmapM] at hok
    dsimp only at hok
    split_ifs at hok with hb hms
    · -- fast piecewise
      simp only [Except.ok.injEq, Prod.mk.injEq] at hok
      obtain ⟨ho, hs, -, -⟩ := hok
      refine ⟨fun _ => ⟨fun hlen => ?_, ho.symm⟩, fun hfalse => ?_⟩
      · rw [← hs, tc_total_shifts_eq_map _ _ _ hlen]
      · rw [hb] at hfalse
        exact absurd hfalse (by simp)
    · -- frequency piecewise, blended stitching
      cases gS with
      | some g => simp at hok
      | none =>
        simp only [Except.ok.injEq, Prod.mk.injEq] at hok
        obtain ⟨ho, hs, hss, hgr⟩ := hok
        refine ⟨fun htrue => absurd htrue hb, fun _ _ => ⟨hs.symm, hss.symm, hgr.symm, ?_⟩⟩
        intro k w hw
        have hklt : k < (sliding_window_coords
            ((tc_input E img none add).d1, (tc_input E img none add).d2)
            (tc_newoverlaps overlaps nov0) (tc_newstrides strides ufg nst0)).length :=
          (List.getElem?_eq_some_iff.mp hw).1
        rw [sliding_window_coords_length] at hklt
        have hndg := tc_dim_grid_eq (tc_input E img none add).d1
          (tc_input E img none add).d2 (tc_newoverlaps overlaps nov0)
          (tc_newstrides strides ufg nst0)
        obtain ⟨hg1, hg2⟩ := sliding_window_coords_grid_of_getElem? hw
        rw [← hs]
        rw [tc_total_shifts_getElem?]
        · rw [hg1, hg2, hndg]
        · rw [hndg]
          exact hklt
    · -- frequency piecewise, hard stitching
      cases gS with
      | some g => simp at hok
      | none =>
        simp only [Except.ok.injEq, Prod.mk.injEq] at hok
        obtain ⟨ho, hs, hss, hgr⟩ := hok
        refine ⟨fun htrue => absurd htrue hb, fun _ _ => ⟨hs.symm, hss.symm, hgr.symm, ?_⟩⟩
        intro k w hw
        have hklt : k < (sliding_window_coords
            ((tc_input E img none add).d1, (tc_input E img none add).d2)
            (tc_newoverlaps overlaps nov0) (tc_newstrides strides ufg nst0)).length :=
          (List.getElem?_eq_some_iff.mp hw).1
        rw [sliding_window_coords_length] at hklt
        have hndg := tc_dim_grid_eq (tc_input E img none add).d1
          (tc_input E img none add).d2 (tc_newoverlaps overlaps nov0)
          (tc_newstrides strides ufg nst0)
        obtain ⟨hg1, hg2⟩ := sliding_window_coords_grid_of_getElem? hw
        rw [← hs]
        rw [tc_total_shifts_getElem?]
        · rw [hg1, hg2, hndg]
        · rw [hndg]
          exact hklt

/-- Witness for C1: concrete evaluations of the rigid fast path and the
piecewise fast path under the trivial externals. -/
theorem C1_tile_and_correct_shift_sign_witness :
    (register_translation trivialExt (tc_input trivialExt wImg none 0).toNd
        (wImg.addConst 0).toNd 1 .real none none [1, 1] = .ok ([0, 0], wSfr, 0)) ∧
    (some (0 : Int) = some 0) ∧ ((none : Option Int) ≠ some 0) ∧
    (wOk (tile_and_correct trivialExt wImg wImg (1, 1) (1, 1) (1, 1) none none 1 1
        (some 0) 0 true none .noFill)).2.1 =
      [(-(([0, 0] : List ℚ).getD 0 0), -(([0, 0] : List ℚ).getD 1 0))] ∧
    (wOk (tile_and_correct trivialExt wImg wImg (1, 1) (1, 1) (1, 1) none none 1 1
        none 0 true none .noFill)).2.1 =
      (wOkRegs ((tc_patch_pairs (tc_input trivialExt wImg none 0)
          (wImg.addConst 0) (1, 1) (1, 1)).mapM (fun p =>
        register_translation trivialExt p.1.toNd p.2.toNd 1 .real
          (tc_lb (([0, 0] : List ℚ).getD 0 0) (([0, 0] : List ℚ).getD 1 0) none)
          (tc_ub (([0, 0] : List ℚ).getD 0 0) (([0, 0] : List ℚ).getD 1 0) none)
          [1, 1]))).map (fun r => (-(r.1.getD 0 0), -(r.1.getD 1 0))) := by
  refine ⟨rfl, rfl, by decide, ?_, ?_⟩
  · exact ((C1_tile_and_correct_shift_sign trivialExt wImg wImg (1, 1) (1, 1) (1, 1)
      none none 1 1 (some 0) 0 true none .noFill [0, 0] wSfr 0 rfl).1
      _ _ _ _ rfl rfl).1
  · exact (((C1_tile_and_correct_shift_sign trivialExt wImg wImg (1, 1) (1, 1) (1, 1)
      none none 1 1 none 0 true none .noFill [0, 0] wSfr 0 rfl).2
      (wOkRegs ((tc_patch_pairs (tc_input trivialExt wImg none 0)
          (wImg.addConst 0) (1, 1) (1, 1)).mapM (fun p =>
        register_translation trivialExt p.1.toNd p.2.toNd 1 .real
          (tc_lb (([0, 0] : List ℚ).getD 0 0) (([0, 0] : List ℚ).getD 1 0) none)
          (tc_ub (([0, 0] : List ℚ).getD 0 0) (([0, 0] : List ℚ).getD 1 0) none)
          [1, 1])))
      _ _ _ _
      (tc_dim_grid (wImg.addConst 0).d1 (wImg.addConst 0).d2 (1, 1) (1, 1))
      (tc_dim_grid (tc_input trivialExt wImg none 0).d1
        (tc_input trivialExt wImg none 0).d2 (tc_newoverlaps (1, 1) none)
        (tc_newstrides (1, 1) 1 none))
      (tc_newoverlaps (1, 1) none) (tc_newstrides (1, 1) 1 none)
      (by decide) rfl rfl rfl rfl (by rfl) (by rfl)).1 rfl).1 (by rfl)

/-! ### `tile_and_correct`: stitching policy (C4) -/

lemma foldl_blendStep_split (ns1 ns2 : Nat) (ps : List TcPatch) (a b : Canvas) :
    ps.foldl (blendStep ns1 ns2) (a, b) =
      (ps.foldl (fun c p => fun i j =>
          if p.x ≤ i ∧ i < p.x + ns1 ∧ p.y ≤ j ∧ j < p.y + ns2 then
            some (toZ (omul (p.im (i - p.x) (j - p.y)) (p.w (i - p.x) (j - p.y)))
              + toZ (c i j))
          else c i j) a,
       ps.foldl (fun c p => fun i j =>
          if p.x ≤ i ∧ i < p.x + ns1 ∧ p.y ≤ j ∧ j < p.y + ns2 then
            some ((if (p.im (i - p.x) (j - p.y)).isSome then
              p.w (i - p.x) (j - p.y) else 0) + toZ (c i j))
          else c i j) b) := by
  induction ps generalizing a b with
  | nil => rfl
  | cons p t ih => exact ih _ _

lemma foldl_accumStep_point {f : TcPatch → Nat → Nat → ℚ} (i j ns1 ns2 : Nat)
    (ps : List TcPatch) (a : Canvas) :
    (ps.foldl (fun c p => fun i j =>
        if p.x ≤ i ∧ i < p.x + ns1 ∧ p.y ≤ j ∧ j < p.y + ns2 then
          some (f p i j + toZ (c i j))
        else c i j) a) i j =
      (if (ps.filter (fun p =>
          decide (p.x ≤ i ∧ i < p.x + ns1 ∧ p.y ≤ j ∧ j < p.y + ns2))).isEmpty
       then a i j
       else some (((ps.filter (fun p =>
          decide (p.x ≤ i ∧ i < p.x + ns1 ∧ p.y ≤ j ∧ j < p.y + ns2))).map
            (fun p => f p i j)).sum + toZ (a i j))) := by
  induction ps generalizing a with
  | nil => simp
  | cons p t ih =>
    simp only [List.foldl_cons, List.filter_cons]
    by_cases hp : p.x ≤ i ∧ i < p.x + ns1 ∧ p.y ≤ j ∧ j < p.y + ns2
    · rw [ih, if_pos (by simp [hp] : (decide
          (p.x ≤ i ∧ i < p.x + ns1 ∧ p.y ≤ j ∧ j < p.y + ns2)) = true)]
      simp only [List.isEmpty_cons, Bool.false_eq_true, if_false, List.map_cons,
        List.sum_cons]
      by_cases he : (t.filter (fun p =>
          decide (p.x ≤ i ∧ i < p.x + ns1 ∧ p.y ≤ j ∧ j < p.y + ns2))).isEmpty = true
      · rw [if_pos he]
        rw [List.isEmpty_iff] at he
        rw [he]
        simp [if_pos hp, toZ]
      · rw [if_neg he]
        simp only [if_pos hp, toZ, Option.getD_some]
        congr 1
        ring
    · have hd : ¬ ((decide
          (p.x ≤ i ∧ i < p.x + ns1 ∧ p.y ≤ j ∧ j < p.y + ns2)) = true) := by
        simp [hp]
      rw [ih, if_neg hd]
      simp only [if_neg hp]

lemma foldl_hardStep_point (ns1 ns2 ho1 ho2 i j : Nat) (ps : List TcPatch)
    (g : Canvas) :
    (ps.foldl (hardStep ns1 ns2 ho1 ho2) g) i j =
      (match (ps.filter (fun p =>
          decide (hard_write_region ho1 ho2 ns1 ns2 p i j))).getLast? with
      | some p => p.im (i - p.x) (j - p.y)
      | none => g i j) := by
  induction ps generalizing g with
  | nil => simp
  | cons p t ih =>
    simp only [List.foldl_cons, List.filter_cons]
    by_cases hp : hard_write_region ho1 ho2 ns1 ns2 p i j
    · rw [ih, if_pos (by simp [hp])]
      cases hft : t.filter (fun p =>
          decide (hard_write_region ho1 ho2 ns1 ns2 p i j)) with
      | nil =>
        simp only [List.getLast?_nil, List.getLast?_singleton]
        unfold hardStep
        rw [if_pos hp]
      | cons b l =>
        simp only [List.getLast?_cons_cons]
        rcases hbl : (b :: l).getLast? with _ | q
        · simp at hbl
        · rfl
    · rw [ih, if_neg (by simp [hp])]
      have hg : hardStep ns1 ns2 ho1 ho2 g p i j = g i j := by
        unfold hardStep
        rw [if_neg hp]
      rw [hg]

lemma blendLoop_eq_spec (ns1 ns2 : Nat) (ps : List TcPatch) (i j : Nat) :
    blendLoop ns1 ns2 ps i j = spec_blend_value ns1 ns2 ps i j := by
  unfold blendLoop spec_blend_value
  rw [foldl_blendStep_split]
  dsimp only
  rw [foldl_accumStep_point (f := fun p i j =>
      toZ (omul (p.im (i - p.x) (j - p.y)) (p.w (i - p.x) (j - p.y)))),
    foldl_accumStep_point (f := fun p i j =>
      if (p.im (i - p.x) (j - p.y)).isSome then p.w (i - p.x) (j - p.y) else 0)]
  by_cases he : (ps.filter (fun p =>
      decide (p.x ≤ i ∧ i < p.x + ns1 ∧ p.y ≤ j ∧ j < p.y + ns2))).isEmpty = true
  · rw [if_pos he, if_pos he, if_pos he]
    rfl
  · rw [if_neg he, if_neg he, if_neg he]
    simp [odiv, toZ]

lemma hardLoop_eq_spec (ns1 ns2 ho1 ho2 : Nat) (ps : List TcPatch) (i j : Nat) :
    hardLoop ns1 ns2 ho1 ho2 ps i j = spec_hard_value ns1 ns2 ho1 ho2 ps i j := by
  unfold hardLoop spec_hard_value
  rw [foldl_hardStep_point]

lemma windowOrigins_getElem? (extent ws stride k : Nat) :
    (windowOrigins extent ws stride)[k]? =
      (if k < (extent - ws + stride - 1) / stride then some (k * stride)
       else if k = (extent - ws + stride - 1) / stride then some (extent - ws)
       else none) := by
  unfold windowOrigins pyRange
  by_cases h1 : k < (extent - ws + stride - 1) / stride
  · rw [List.getElem?_append_left (by simpa using h1)]
    rw [List.getElem?_map, List.getElem?_range (by simpa using h1)]
    simp [h1]
  · rw [List.getElem?_append_right (by simpa using h1)]
    simp only [List.length_map, List.length_range, Nat.sub_zero]
    by_cases h2 : k = (extent - ws + stride - 1) / stride
    · rw [if_neg h1, if_pos h2, h2, Nat.sub_self]
      rfl
    · rw [if_neg h1, if_neg h2]
      rw [List.getElem?_eq_none (by simp; omega)]

lemma stop_le_count_mul (stop stride : Nat) (hs : 1 ≤ stride) :
    stop ≤ (stop + stride - 1) / stride * stride := by
  by_contra h
  push_neg at h
  exact absurd (lt_pyRange_count_of_mul_lt hs h) (lt_irrefl _)

/-- Every 1D index is inside the leading-trimmed region of some window: the
trimmed regions (`x + ho ≤ i < x + ws`, no trim for the first window) still
cover the whole extent whenever `stride + ho ≤ ws`. -/
lemma windowOrigins_hard_cover (extent ws stride ho i : Nat)
    (hs : 1 ≤ stride) (hws : ws ≤ extent) (hsh : stride + ho ≤ ws)
    (hi : i < extent) :
    ∃ k o, (windowOrigins extent ws stride)[k]? = some o ∧
      (if k = 0 then o else o + ho) ≤ i ∧ i < o + ws := by
  have hget := windowOrigins_getElem? extent ws stride
  have hF2 := stop_le_count_mul (extent - ws) stride hs
  obtain ⟨n, hn⟩ : ∃ n, (extent - ws + stride - 1) / stride = n := ⟨_, rfl⟩
  rw [hn] at hF2
  simp only [hn] at hget
  by_cases hA : extent - ws + ho ≤ i ∧ 1 ≤ n
  · refine ⟨n, extent - ws, ?_, ?_, by omega⟩
    · rw [hget n, if_neg (lt_irrefl n), if_pos rfl]
    · have hne : ¬ n = 0 := by omega
      rw [if_neg hne]
      omega
  · by_cases hn0 : n = 0
    · refine ⟨0, extent - ws, ?_, ?_, by omega⟩
      · rw [hget 0, hn0, if_neg (lt_irrefl 0), if_pos rfl]
      · rw [if_pos rfl]
        have hz : extent - ws = 0 := by
          rw [hn0] at hF2
          simpa using hF2
        omega
    · have hB : i < extent - ws + ho := by
        by_contra hcon
        push_neg at hcon
        exact hA ⟨hcon, by omega⟩
      have hqr := Nat.div_add_mod (i - ho) stride
      obtain ⟨q, hq⟩ : ∃ q, (i - ho) / stride = q := ⟨_, rfl⟩
      obtain ⟨r, hr⟩ : ∃ r, (i - ho) % stride = r := ⟨_, rfl⟩
      rw [hq, hr] at hqr
      have hrs : r < stride := by
        rw [← hr]
        exact Nat.mod_lt _ hs
      by_cases hcase : q ≤ n - 1
      · refine ⟨q, q * stride, ?_, ?_, ?_⟩
        · have hqn : q < n := by omega
          rw [hget q, if_pos hqn]
        · by_cases hq0 : q = 0
          · rw [if_pos hq0, hq0]
            simp
          · rw [if_neg hq0]
            have h1 : 0 < stride * q := Nat.mul_pos (by omega) (by omega)
            have h2 : q * stride = stride * q := Nat.mul_comm _ _
            omega
        · have h2 : q * stride = stride * q := Nat.mul_comm _ _
          omega
      · refine ⟨n - 1, (n - 1) * stride, ?_, ?_, ?_⟩
        · have hqn : n - 1 < n := by omega
          rw [hget (n - 1), if_pos hqn]
        · by_cases hk0 : n - 1 = 0
          · rw [if_pos hk0, hk0]
            simp
          · rw [if_neg hk0]
            have hle : (n - 1) * stride ≤ q * stride :=
              Nat.mul_le_mul_right _ (by omega)
            have h1 : 0 < stride * q := Nat.mul_pos (by omega) (by omega)
            have h2 : q * stride = stride * q := Nat.mul_comm _ _
            omega
        · have hsplit : n * stride = (n - 1) * stride + stride := by
            have h3 : (n - 1 + 1) * stride = (n - 1) * stride + 1 * stride :=
              Nat.add_mul _ _ _
            have h4 : n - 1 + 1 = n := by omega
            rw [h4] at h3
            omega
          omega

lemma sliding_window_coords_getElem?_of (shape ov st : Nat × Nat)
    (k1 k2 o1 o2 : Nat)
    (h1 : (windowOrigins shape.1 (ov.1 + st.1) st.1)[k1]? = some o1)
    (h2 : (windowOrigins shape.2 (ov.2 + st.2) st.2)[k2]? = some o2) :
    (sliding_window_coords shape ov st)[k1 *
        (windowOrigins shape.2 (ov.2 + st.2) st.2).length + k2]? =
      some ⟨k1, k2, o1, o2⟩ := by
  have hk2 : k2 < (windowOrigins shape.2 (ov.2 + st.2) st.2).length :=
    (List.getElem?_eq_some_iff.mp h2).1
  have hpos : 0 < (windowOrigins shape.2 (ov.2 + st.2) st.2).length := by omega
  simp only [sliding_window_coords]
  rw [getElem?_flatMap_map, withIdx_length]
  set L2 := (windowOrigins shape.2 (ov.2 + st.2) st.2).length with hL2
  have hd : (k1 * L2 + k2) / L2 = k1 := by
    rw [Nat.mul_comm k1 L2, Nat.mul_add_div hpos, Nat.div_eq_of_lt hk2]
    omega
  have hm : (k1 * L2 + k2) % L2 = k2 := by
    rw [Nat.mul_comm k1 L2, Nat.mul_add_mod, Nat.mod_eq_of_lt hk2]
  rw [hd, hm, withIdx_getElem?, withIdx_getElem?, h1, h2]
  rfl

/-- The `k`-th stitching patch, explicitly: origin and grid coordinate of the
`k`-th fine window, the shift-corrected window at the negated upsampled
fields, and the window's blending weight matrix. -/
lemma tc_patches_getElem? (E : Ext) (img1 : Img) (nov nst : Nat × Nat)
    (sx sy ph : Nat → Nat → ℚ) (n1 n2 : Nat) (bn : Border) (k : Nat)
    (w : WindowSpec)
    (hlen : (sliding_window_coords (img1.d1, img1.d2) nov nst).length = n1 * n2)
    (hw : (sliding_window_coords (img1.d1, img1.d2) nov nst)[k]? = some w) :
    (tc_patches E img1 nov nst sx sy ph n1 n2 bn)[k]? =
      some ⟨w.x, w.y, w.g1, w.g2,
        E.applyShiftsDft (img1.slice w.x w.y (nov.1 + nst.1) (nov.2 + nst.2))
          (-(sx (k / n2) (k % n2)), -(sy (k / n2) (k % n2)))
          (ph (k / n2) (k % n2)) false bn,
        weight_matrix_body nov nst (max_grid (img1.d1, img1.d2) nov nst).1
          (max_grid (img1.d1, img1.d2) nov nst).2 w.g1 w.g2⟩ := by
  have hk : k < (sliding_window_coords (img1.d1, img1.d2) nov nst).length :=
    (List.getElem?_eq_some_iff.mp hw).1
  have hk' : k < n1 * n2 := by omega
  unfold tc_patches
  dsimp only
  have himgN : ((sliding_window_coords (img1.d1, img1.d2) nov nst).map (fun w =>
      img1.slice w.x w.y (nov.1 + nst.1) (nov.2 + nst.2)))[k]? =
      some (img1.slice w.x w.y (nov.1 + nst.1) (nov.2 + nst.2)) := by
    rw [List.getElem?_map, hw]
    rfl
  have hts : (tc_total_shifts sx sy n1 n2)[k]? =
      some (-(sx (k / n2) (k % n2)), -(sy (k / n2) (k % n2))) :=
    tc_total_shifts_getElem? sx sy n1 n2 k hk'
  have hph : (reshapeFlat ph n1 n2)[k]? = some (ph (k / n2) (k % n2)) := by
    unfold reshapeFlat
    rw [List.getElem?_map, List.getElem?_range hk']
    rfl
  have hz1 : ((tc_total_shifts sx sy n1 n2).zip (reshapeFlat ph n1 n2))[k]? =
      some ((-(sx (k / n2) (k % n2)), -(sy (k / n2) (k % n2))),
        ph (k / n2) (k % n2)) :=
    List.getElem?_zip_eq_some.mpr ⟨hts, hph⟩
  have hz2 : ((((sliding_window_coords (img1.d1, img1.d2) nov nst).map (fun w =>
        img1.slice w.x w.y (nov.1 + nst.1) (nov.2 + nst.2))).zip
      ((tc_total_shifts sx sy n1 n2).zip (reshapeFlat ph n1 n2))))[k]? =
      some (img1.slice w.x w.y (nov.1 + nst.1) (nov.2 + nst.2),
        ((-(sx (k / n2) (k % n2)), -(sy (k / n2) (k % n2))),
          ph (k / n2) (k % n2))) :=
    List.getElem?_zip_eq_some.mpr ⟨himgN, hz1⟩
  have himC : ((((sliding_window_coords (img1.d1, img1.d2) nov nst).map (fun w =>
        img1.slice w.x w.y (nov.1 + nst.1) (nov.2 + nst.2))).zip
      ((tc_total_shifts sx sy n1 n2).zip (reshapeFlat ph n1 n2))).map
      (fun p => E.applyShiftsDft p.1 p.2.1 p.2.2 false bn))[k]? =
      some (E.applyShiftsDft (img1.slice w.x w.y (nov.1 + nst.1) (nov.2 + nst.2))
        (-(sx (k / n2) (k % n2)), -(sy (k / n2) (k % n2)))
        (ph (k / n2) (k % n2)) false bn) := by
    rw [List.getElem?_map, hz2]
    rfl
  have hwm : (create_weight_matrix_for_blending (img1.d1, img1.d2) nov nst)[k]? =
      some (weight_matrix_body nov nst (max_grid (img1.d1, img1.d2) nov nst).1
        (max_grid (img1.d1, img1.d2) nov nst).2 w.g1 w.g2) := by
    unfold create_weight_matrix_for_blending
    rw [List.getElem?_map, hw]
    rfl
  have hz3 : (((sliding_window_coords (img1.d1, img1.d2) nov nst).zip
      ((((sliding_window_coords (img1.d1, img1.d2) nov nst).map (fun w =>
          img1.slice w.x w.y (nov.1 + nst.1) (nov.2 + nst.2))).zip
        ((tc_total_shifts sx sy n1 n2).zip (reshapeFlat ph n1 n2))).map
        (fun p => E.applyShiftsDft p.1 p.2.1 p.2.2 false bn))))[k]? =
      some (w, E.applyShiftsDft (img1.slice w.x w.y (nov.1 + nst.1) (nov.2 + nst.2))
        (-(sx (k / n2) (k % n2)), -(sy (k / n2) (k % n2)))
        (ph (k / n2) (k % n2)) false bn) :=
    List.getElem?_zip_eq_some.mpr ⟨hw, himC⟩
  have hz4 : (((tc_total_shifts sx sy n1 n2).zip
      (create_weight_matrix_for_blending (img1.d1, img1.d2) nov nst)))[k]? =
      some ((-(sx (k / n2) (k % n2)), -(sy (k / n2) (k % n2))),
        weight_matrix_body nov nst (max_grid (img1.d1, img1.d2) nov nst).1
          (max_grid (img1.d1, img1.d2) nov nst).2 w.g1 w.g2) :=
    List.getElem?_zip_eq_some.mpr ⟨hts, hwm⟩
  have hz5 : (((sliding_window_coords (img1.d1, img1.d2) nov nst).zip
      ((((sliding_window_coords (img1.d1, img1.d2) nov nst).map (fun w =>
          img1.slice w.x w.y (nov.1 + nst.1) (nov.2 + nst.2))).zip
        ((tc_total_shifts sx sy n1 n2).zip (reshapeFlat ph n1 n2))).map
        (fun p => E.applyShiftsDft p.1 p.2.1 p.2.2 false bn))).zip
      ((tc_total_shifts sx sy n1 n2).zip
        (create_weight_matrix_for_blending (img1.d1, img1.d2) nov nst)))[k]? =
      some ((w, E.applyShiftsDft (img1.slice w.x w.y (nov.1 + nst.1) (nov.2 + nst.2))
          (-(sx (k / n2) (k % n2)), -(sy (k / n2) (k % n2)))
          (ph (k / n2) (k % n2)) false bn),
        ((-(sx (k / n2) (k % n2)), -(sy (k / n2) (k % n2))),
          weight_matrix_body nov nst (max_grid (img1.d1, img1.d2) nov nst).1
            (max_grid (img1.d1, img1.d2) nov nst).2 w.g1 w.g2)) :=
    List.getElem?_zip_eq_some.mpr ⟨hz3, hz4⟩
  rw [List.getElem?_map, hz5]
  rfl

/-- Hard-partition coverage: every in-bounds pixel lies in the trimmed write
region of at least one stitching patch, so the last such patch exists. -/
lemma tc_patches_hard_cover (E : Ext) (img1 : Img) (nov nst : Nat × Nat)
    (sx sy ph : Nat → Nat → ℚ) (n1 n2 : Nat) (bn : Border) (i j : Nat)
    (hlen : (sliding_window_coords (img1.d1, img1.d2) nov nst).length = n1 * n2)
    (hs1 : 1 ≤ nst.1) (hs2 : 1 ≤ nst.2)
    (hw1 : nov.1 + nst.1 ≤ img1.d1) (hw2 : nov.2 + nst.2 ≤ img1.d2)
    (hi : i < img1.d1) (hj : j < img1.d2) :
    ∃ p, ((tc_patches E img1 nov nst sx sy ph n1 n2 bn).filter (fun p =>
        decide (hard_write_region (nov.1 / 2) (nov.2 / 2)
          (nst.1 + nov.1) (nst.2 + nov.2) p i j))).getLast? = some p := by
  obtain ⟨k1, o1, hk1, htrim1, hub1⟩ := windowOrigins_hard_cover img1.d1
    (nov.1 + nst.1) nst.1 (nov.1 / 2) i hs1 hw1 (by omega) hi
  obtain ⟨k2, o2, hk2, htrim2, hub2⟩ := windowOrigins_hard_cover img1.d2
    (nov.2 + nst.2) nst.2 (nov.2 / 2) j hs2 hw2 (by omega) hj
  have hcoord := sliding_window_coords_getElem?_of (img1.d1, img1.d2) nov nst
    k1 k2 o1 o2 hk1 hk2
  have hp := tc_patches_getElem? E img1 nov nst sx sy ph n1 n2 bn _ _ hlen hcoord
  obtain ⟨hKlt, hKeq⟩ := List.getElem?_eq_some_iff.mp hp
  obtain ⟨p0, hp0, hpx, hpy, hpg1, hpg2⟩ :
      ∃ p0, p0 ∈ tc_patches E img1 nov nst sx sy ph n1 n2 bn ∧
        p0.x = o1 ∧ p0.y = o2 ∧ p0.g1 = k1 ∧ p0.g2 = k2 := by
    refine ⟨_, List.getElem_mem hKlt, ?_, ?_, ?_, ?_⟩ <;> rw [hKeq]
  have hhard : hard_write_region (nov.1 / 2) (nov.2 / 2)
      (nst.1 + nov.1) (nst.2 + nov.2) p0 i j := by
    unfold hard_write_region
    rw [hpx, hpy, hpg1, hpg2]
    exact ⟨htrim1, by omega, htrim2, by omega⟩
  have hfmem : p0 ∈ (tc_patches E img1 nov nst sx sy ph n1 n2 bn).filter (fun p =>
      decide (hard_write_region (nov.1 / 2) (nov.2 / 2)
        (nst.1 + nov.1) (nst.2 + nov.2) p i j)) :=
    List.mem_filter.mpr ⟨hp0, decide_eq_true hhard⟩
  have hne := List.ne_nil_of_mem hfmem
  exact ⟨_, List.getLast?_eq_getLast _ hne⟩

/-- **C4.** In `tile_and_correct`'s frequency-domain piecewise path (with
`max_shear` the 75th percentile of the per-axis first-difference magnitudes of
the upsampled shift fields): when `max_shear < 0.5` every output pixel is the
normalized weighted sum — accumulated Σ weight·patch divided by accumulated
Σ weight·valid-mask — over the patches covering it (minus `add_to_movie`);
when `max_shear ≥ 0.5` no blending occurs: every output pixel equals the value
of a single patch, the last enumerated one whose leading-trimmed region (half
the overlap trimmed from each internal patch edge) contains it, and under the
grid-validity bounds such a patch exists for every in-bounds pixel. -/
theorem C4_tile_and_correct_stitching (E : Ext) (img template : Img)
    (strides overlaps max_shifts : Nat × Nat) (nov0 nst0 : Option (Nat × Nat))
    (ufg uff : Nat) (mdr : Option Int) (add : ℚ) (bn : Border)
    (rigid : List ℚ) (sfr : NdImg) (dp : ℚ)
    (regs : List (List ℚ × NdImg × ℚ)) (out : Img) (sh : List (ℚ × ℚ))
    (ss gr : Option (List (Nat × Nat))) (dg ndg nov nst : Nat × Nat)
    (sxu syu phu : Nat → Nat → ℚ) (ps : List TcPatch)
    (hmd : mdr ≠ some 0)
    (hrigid : register_translation E (tc_input E img none add).toNd
        (template.addConst add).toNd uff .real none none
        [max_shifts.1, max_shifts.2] = .ok (rigid, sfr, dp))
    (hdg : dg = tc_dim_grid (template.addConst add).d1 (template.addConst add).d2
        overlaps strides)
    (hnov : nov = tc_newoverlaps overlaps nov0)
    (hnst : nst = tc_newstrides strides ufg nst0)
    (hndg : ndg = tc_dim_grid (tc_input E img none add).d1
        (tc_input E img none add).d2 nov nst)
    (hsxu : sxu = E.resize (tc_field_x regs dg.2) dg ndg)
    (hsyu : syu = E.resize (tc_field_y regs dg.2) dg ndg)
    (hphu : phu = E.resize (tc_field_phase regs dg.2) dg ndg)
    (hps : ps = tc_patches E (tc_input E img none add) nov nst sxu syu phu
        ndg.1 ndg.2 bn)
    (hmapM : (tc_patch_pairs (tc_input E img none add) (template.addConst add)
        overlaps strides).mapM (fun p =>
      register_translation E p.1.toNd p.2.toNd uff .real
        (tc_lb (rigid.getD 0 0) (rigid.getD 1 0) mdr)
        (tc_ub (rigid.getD 0 0) (rigid.getD 1 0) mdr)
        [max_shifts.1, max_shifts.2]) = .ok regs)
    (hok : tile_and_correct E img template strides overlaps max_shifts nov0 nst0
        ufg uff mdr add false none bn = .ok (out, sh, ss, gr)) :
    (tc_max_shear sxu syu ndg.1 ndg.2 < 1 / 2 →
      ∀ i j, out.px i j =
        osub (spec_blend_value (nst.1 + nov.1) (nst.2 + nov.2) ps i j) add) ∧
    (¬ tc_max_shear sxu syu ndg.1 ndg.2 < 1 / 2 →
      (∀ i j, out.px i j =
        osub (spec_hard_value (nst.1 + nov.1) (nst.2 + nov.2)
          (nov.1 / 2) (nov.2 / 2) ps i j) add) ∧
      (1 ≤ nst.1 → 1 ≤ nst.2 →
        nov.1 + nst.1 ≤ (tc_input E img none add).d1 →
        nov.2 + nst.2 ≤ (tc_input E img none add).d2 →
        ∀ i j, i < (tc_input E img none add).d1 →
          j < (tc_input E img none add).d2 →
          ∃ p, (ps.filter (fun p =>
              decide (hard_write_region (nov.1 / 2) (nov.2 / 2)
                (nst.1 + nov.1) (nst.2 + nov.2) p i j))).getLast? = some p ∧
            out.px i j = osub (p.im (i - p.x) (j - p.y)) add)) := by
  subst hdg
  subst hnov
  subst hnst
  subst hndg
  subst hsxu
  subst hsyu
  subst hphu
  subst hps
  unfold tile_and_correct at hok
  dsimp only at hok
  rw [hrigid] at hok
  dsimp only at hok
  rw [if_neg hmd] at hok
  rw [hmapM] at hok
  dsimp only at hok
  simp only [Bool.false_eq_true, if_false] at hok
  split_ifs at hok with hms
  · -- blended stitching branch
    simp only [Except.ok.injEq, Prod.mk.injEq] at hok
    obtain ⟨ho, hs, hss, hgr⟩ := hok
    constructor
    · intro hms2 i j
      rw [← ho]
      simp only [Img.subConst]
      rw [blendLoop_eq_spec]
    · intro hms2
      exact absurd hms hms2
  · -- hard stitching branch
    simp only [Except.ok.injEq, Prod.mk.injEq] at hok
    obtain ⟨ho, hs, hss, hgr⟩ := hok
    constructor
    · intro hms2
      exact absurd hms2 hms
    · intro _
      have hpoint : ∀ i j, out.px i j =
          osub (spec_hard_value
            ((tc_newstrides strides ufg nst0).1 + (tc_newoverlaps overlaps nov0).1)
            ((tc_newstrides strides ufg nst0).2 + (tc_newoverlaps overlaps nov0).2)
            ((tc_newoverlaps overlaps nov0).1 / 2) ((tc_newoverlaps overlaps nov0).2 / 2)
            (tc_patches E (tc_input E img none add)
              (tc_newoverlaps overlaps nov0) (tc_newstrides strides ufg nst0)
              (E.resize (tc_field_x regs (tc_dim_grid (template.addConst add).d1
                (template.addConst add).d2 overlaps strides).2)
                (tc_dim_grid (template.addConst add).d1 (template.addConst add).d2
                  overlaps strides)
                (tc_dim_grid (tc_input E img none add).d1
                  (tc_input E img none add).d2 (tc_newoverlaps overlaps nov0)
                  (tc_newstrides strides ufg nst0)))
              (E.resize (tc_field_y regs (tc_dim_grid (template.addConst add).d1
                (template.addConst add).d2 overlaps strides).2)
                (tc_dim_grid (template.addConst add).d1 (template.addConst add).d2
                  overlaps strides)
                (tc_dim_grid (tc_input E img none add).d1
                  (tc_input E img none add).d2 (tc_newoverlaps overlaps nov0)
                  (tc_newstrides strides ufg nst0)))
              (E.resize (tc_field_phase regs (tc_dim_grid (template.addConst add).d1
                (template.addConst add).d2 overlaps strides).2)
                (tc_dim_grid (template.addConst add).d1 (template.addConst add).d2
                  overlaps strides)
                (tc_dim_grid (tc_input E img none add).d1
                  (tc_input E img none add).d2 (tc_newoverlaps overlaps nov0)
                  (tc_newstrides strides ufg nst0)))
              (tc_dim_grid (tc_input E img none add).d1
                (tc_input E img none add).d2 (tc_newoverlaps overlaps nov0)
                (tc_newstrides strides ufg nst0)).1
              (tc_dim_grid (tc_input E img none add).d1
                (tc_input E img none add).d2 (tc_newoverlaps overlaps nov0)
                (tc_newstrides strides ufg nst0)).2 bn) i j) add := by
        intro i j
        rw [← ho]
        simp only [Img.subConst]
        rw [hardLoop_eq_spec]
      refine ⟨hpoint, ?_⟩
      intro h1 h2 h3 h4 i j hi hj
      have hlen : (sliding_window_coords
          ((tc_input E img none add).d1, (tc_input E img none add).d2)
          (tc_newoverlaps overlaps nov0) (tc_newstrides strides ufg nst0)).length =
          (tc_dim_grid (tc_input E img none add).d1 (tc_input E img none add).d2
            (tc_newoverlaps overlaps nov0) (tc_newstrides strides ufg nst0)).1 *
          (tc_dim_grid (tc_input E img none add).d1 (tc_input E img none add).d2
            (tc_newoverlaps overlaps nov0) (tc_newstrides strides ufg nst0)).2 := by
        rw [sliding_window_coords_length, tc_dim_grid_eq]
      obtain ⟨p, hp⟩ := tc_patches_hard_cover E (tc_input E img none add)
        (tc_newoverlaps overlaps nov0) (tc_newstrides strides ufg nst0)
        _ _ _ _ _ bn i j hlen h1 h2 h3 h4 hi hj
      refine ⟨p, hp, ?_⟩
      rw [hpoint i j]
      unfold spec_hard_value
      rw [hp]

/-- Witness for C4: a concrete evaluation of the blended frequency-domain
path under the trivial externals (the upsampled fields are constant, so
`max_shear = 0 < 0.5`). -/
theorem C4_tile_and_correct_stitching_witness :
    ((none : Option Int) ≠ some 0) ∧
    tc_max_shear (fun _ _ => 0) (fun _ _ => 0) 2 2 < 1 / 2 ∧
    (wOk (tile_and_correct trivialExt wImg wImg (1, 1) (1, 1) (1, 1) none none 1 1
        none 0 false none .noFill)).1.px 1 1 =
      osub (spec_blend_value 2 2 (tc_patches trivialExt
        (tc_input trivialExt wImg none 0) (1, 1) (1, 1)
        (fun _ _ => 0) (fun _ _ => 0) (fun _ _ => 0) 2 2 .noFill) 1 1) 0 := by
  have hms : tc_max_shear (fun _ _ => (0 : ℚ)) (fun _ _ => (0 : ℚ)) 2 2 < 1 / 2 := by
    simp [tc_max_shear, maxAbsDiff0, maxAbsDiff1, sortQ, insertSorted,
      List.range_succ]
  refine ⟨by decide, hms, ?_⟩
  exact (C4_tile_and_correct_stitching trivialExt wImg wImg (1, 1) (1, 1) (1, 1)
    none none 1 1 none 0 .noFill [0, 0] wSfr 0 wRegs
    (wOk (tile_and_correct trivialExt wImg wImg (1, 1) (1, 1) (1, 1) none none 1 1
      none 0 false none .noFill)).1
    (wOk (tile_and_correct trivialExt wImg wImg (1, 1) (1, 1) (1, 1) none none 1 1
      none 0 false none .noFill)).2.1
    (wOk (tile_and_correct trivialExt wImg wImg (1, 1) (1, 1) (1, 1) none none 1 1
      none 0 false none .noFill)).2.2.1
    (wOk (tile_and_correct trivialExt wImg wImg (1, 1) (1, 1) (1, 1) none none 1 1
      none 0 false none .noFill)).2.2.2
    (2, 2) (2, 2) (1, 1) (1, 1)
    (fun _ _ => 0) (fun _ _ => 0) (fun _ _ => 0)
    (tc_patches trivialExt (tc_input trivialExt wImg none 0) (1, 1) (1, 1)
      (fun _ _ => 0) (fun _ _ => 0) (fun _ _ => 0) 2 2 .noFill)
    (by decide) rfl
    ((rfl : tc_dim_grid (Img.addConst wImg 0).d1 (Img.addConst wImg 0).d2
      (1, 1) (1, 1) = (2, 2)).symm)
    ((rfl : tc_newoverlaps (1, 1) none = (1, 1)).symm)
    ((by simp [tc_newstrides, npRound] :
      tc_newstrides (1, 1) 1 none = (1, 1)).symm)
    ((rfl : tc_dim_grid (tc_input trivialExt wImg none 0).d1
      (tc_input trivialExt wImg none 0).d2 (1, 1) (1, 1) = (2, 2)).symm)
    rfl rfl rfl rfl (by rfl) (by rfl)).1 hms 1 1

/-! ### The orchestrators' non-finiteness checks (C8) -/

lemma npMinV_neg_isnan (l : List NpV) :
    ((npMinV l).neg).isnan = l.any NpV.isnan := by
  unfold npMinV
  cases hany : l.any NpV.isnan
  · simp only [Bool.false_eq_true, if_false]
    split_ifs with h2
    · rfl
    · cases hm : (l.filterMap (fun v =>
          match v with | .fin q => some q | _ => none)).min? <;> rfl
  · rfl

/-- **C8 (corrected).** The only non-finiteness check in the orchestrators is
`np.isnan` of the scalar `add_to_movie`, performed once before the loop:
`motion_correct_batch_rigid` with `add_to_movie=None` aborts exactly when the
initial template contains a NaN (since `add = -min(template)`); with no NaN
there — in particular with `±Inf` entries — it completes and reruns the worker
on every intermediate template without any further check; with an explicit
`add_to_movie` the template is never inspected at all; and
`motion_correct_batch_pwrigid` checks only its scalar argument, never the
template. -/
theorem C8_orchestrator_nonfinite_checks_amended (template t : List NpV)
    (a add : NpV) (num_iter : Nat) (worker : List NpV → List NpV) :
    (motion_correct_batch_rigid template none num_iter worker =
        .error "The movie contains NaNs. NaNs are not allowed!" ↔
      template.any NpV.isnan = true) ∧
    (template.any NpV.isnan = false →
      motion_correct_batch_rigid template none num_iter worker =
        .ok (Nat.iterate worker num_iter template)) ∧
    (motion_correct_batch_rigid template (some a) num_iter worker =
      if NpV.isnan a then .error "The movie contains NaNs. NaNs are not allowed!"
      else .ok (Nat.iterate worker num_iter template)) ∧
    (motion_correct_batch_pwrigid (some t) add num_iter worker =
      if NpV.isnan add then
        .error "The template contains NaNs. NaNs are not allowed!"
      else .ok (Nat.iterate worker num_iter t)) := by
  have hmin := npMinV_neg_isnan template
  refine ⟨?_, ?_, rfl, rfl⟩
  · unfold motion_correct_batch_rigid
    dsimp only
    cases hany : template.any NpV.isnan
    · rw [hany] at hmin
      rw [hmin]
      simp
    · rw [hany] at hmin
      rw [hmin]
      simp
  · intro hany
    rw [hany] at hmin
    unfold motion_correct_batch_rigid
    dsimp only
    rw [hmin]
    simp

/-- Counterexample to C8 as stated: an all-`+Inf` initial template passes the
check; a NaN template produced by iteration 1 is rerun by iteration 2 with no
error; `motion_correct_batch_pwrigid` proceeds on a NaN-containing template
whenever the scalar `add_to_movie` is finite. -/
theorem C8_counterexample :
    (motion_correct_batch_rigid [NpV.pinf] none 1 (fun x => x) =
      .ok [NpV.pinf]) ∧
    (motion_correct_batch_rigid [NpV.fin 0] none 2 (fun _ => [NpV.nan]) =
      .ok [NpV.nan]) ∧
    (motion_correct_batch_pwrigid (some [NpV.nan]) (NpV.fin 0) 1 (fun x => x) =
      .ok [NpV.nan]) :=
  ⟨rfl, rfl, rfl⟩

/-- Witness for C8: the NaN-free hypothesis of the second conjunct is
satisfiable. -/
theorem C8_orchestrator_nonfinite_checks_amended_witness :
    ([NpV.fin 0].any NpV.isnan = false) ∧
    motion_correct_batch_rigid [NpV.fin 0] none 1 (fun x => x) =
      .ok (Nat.iterate (fun x => x) 1 [NpV.fin 0]) :=
  ⟨by decide, (C8_orchestrator_nonfinite_checks_amended [NpV.fin 0] [NpV.fin 0]
    NpV.nan (NpV.fin 1) 1 (fun x => x)).2.1 (by decide)⟩

/-! ### When the workers persist corrected frames (C9) -/

lemma pw_save_flag_loop_eq (n : Nat) (sm : Bool) :
    ∀ fuel it, pw_save_flag_loop n fuel it sm = List.replicate fuel sm := by
  intro fuel
  induction fuel with
  | zero => intro it; rfl
  | succ m ih =>
    intro it
    simp only [pw_save_flag_loop, ite_self, List.replicate_succ, ih]

lemma save_flag_loop_eq (smr : Bool) (n : Nat) :
    ∀ fuel it, it + fuel = n →
      save_flag_loop smr n fuel it false =
        (List.range fuel).map (fun k => if it + k = n - 1 then smr else false) := by
  intro fuel
  induction fuel with
  | zero => intro it _; rfl
  | succ m ih =>
    intro it hf
    simp only [save_flag_loop]
    by_cases hit : it = n - 1
    · have hm : m = 0 := by omega
      subst hm
      rw [if_pos hit]
      have h0 : it + 0 = n - 1 := by omega
      have hr1 : List.range 1 = [0] := rfl
      simp only [Nat.zero_add, hr1, List.map_cons, List.map_nil]
      rw [if_pos h0]
      rfl
    · rw [if_neg hit]
      rw [ih (it + 1) (by omega)]
      rw [List.range_succ_eq_map, List.map_cons, List.map_map]
      congr 1
      · exact (if_neg (by omega)).symm
      · apply List.map_congr_left
        intro k _
        simp only [Function.comp_apply]
        have he : it + 1 + k = it + (k + 1) := by omega
        rw [he]

/-- **C9.** The per-iteration `save_movie` flags the two orchestrators hand to
`motion_correction_piecewise`: the rigid variant passes `False` on every
iteration except the last, where it passes `save_movie_rigid` — matching the
claim; but the piecewise-rigid variant's final-iteration assignment
`save_movie = save_movie` is a self-assignment, so it passes the requested
`save_movie` on *every* iteration (e.g. `[true, true]` for two iterations),
and with integer `splits` and `num_splits=None` each such call creates an
output file, which makes every worker write its corrected frames — on
non-final iterations too, contradicting the claim. -/
theorem C9_save_only_final_iteration (num_iter : Nat) (sm : Bool) :
    (rigid_save_flags num_iter sm =
      (List.range num_iter).map (fun k => if k = num_iter - 1 then sm else false)) ∧
    (pwrigid_save_flags num_iter sm = List.replicate num_iter sm) ∧
    (pwrigid_save_flags 2 true = [true, true]) ∧
    (rigid_save_flags 3 true = [false, false, true]) ∧
    (piecewise_fname_tot true true true "b" = some "b") ∧
    (piecewise_fname_tot false true true "b" = none) ∧
    (tile_and_correct_wrapper_writes (piecewise_fname_tot true true true "b") =
      true) ∧
    (tile_and_correct_wrapper_writes (piecewise_fname_tot false true true "b") =
      false) := by
  refine ⟨?_, ?_, rfl, rfl, rfl, rfl, rfl, rfl⟩
  · unfold rigid_save_flags
    rw [save_flag_loop_eq sm num_iter num_iter 0 (by omega)]
    apply List.map_congr_left
    intro k _
    have he : 0 + k = k := by omega
    rw [he]
  · unfold pwrigid_save_flags
    rw [pw_save_flag_loop_eq]

end Caiman
